import Mathlib

/-
Verification of the BadgerDB-style buffer pool manager in src/src/buffer.cpp.

The manager state (descriptor table, buffer pool, cache index, clock hand)
and the five public operations (readPage, allocPage, unPinPage, flushFile,
disposePage) plus the clock allocator (allocBuf) are embedded as pure Lean
functions over explicit state.  Exceptions become an error result carrying
the state at the throw point (C++ exceptions leave earlier in-place
mutations visible, which the embedding makes explicit).  The file
collaborator (File) is embedded as a disk state keyed by file identity,
with an operation log so that I/O calls are observable.
-/

/-- One fixed-size page.  The page value exposes its assigned page number
(`page_number()` in the source); the payload is abstracted as a single
natural number. -/
structure Page where
  page_number : Nat
  data : Nat
deriving DecidableEq, Repr

instance : Inhabited Page := ⟨⟨0, 0⟩⟩

/-- Observable calls made to the file collaborator, in the order issued
(most recent first). -/
inductive DiskOp where
  | readP (fid pageNo : Nat)
  | writeP (fid pageNo : Nat)
  | allocP (fid pageNo : Nat)
  | deleteP (fid pageNo : Nat)
deriving DecidableEq, Repr

/-- Persistent content of one file: the next page number the collaborator
will assign, and the pages currently on disk. -/
structure FileData where
  nextPage : Nat
  pages : List (Nat × Page)
deriving DecidableEq, Repr

instance : Inhabited FileData := ⟨⟨0, []⟩⟩

/-- The file collaborator state: files keyed by identity (a C++ `File*`
is modelled as a natural number, 0 playing the role of a null pointer),
plus the log of collaborator calls. -/
structure Disk where
  files : List (Nat × FileData)
  log : List DiskOp
deriving DecidableEq, Repr

/-- First-match association-list lookup. -/
def assocLookup {α : Type} : List (Nat × α) → Nat → Option α
  | [], _ => none
  | (k, v) :: rest, k0 => if k = k0 then some v else assocLookup rest k0

def diskGetFile (disk : Disk) (fid : Nat) : FileData :=
  (assocLookup disk.files fid).getD default

def diskSetFile (disk : Disk) (fid : Nat) (fd : FileData) : Disk :=
  { disk with files := (fid, fd) :: disk.files }

/-- `file->allocatePage()`: the collaborator assigns the next page number
and creates the page on disk; the fresh page value is returned. -/
def fileAllocatePage (disk : Disk) (fid : Nat) : Page × Disk :=
  let fd := diskGetFile disk fid
  let p : Page := { page_number := fd.nextPage, data := 0 }
  (p, { diskSetFile disk fid { nextPage := fd.nextPage + 1, pages := (p.page_number, p) :: fd.pages } with
          log := DiskOp.allocP fid p.page_number :: disk.log })

/-- `file->readPage(pageNo)`: a full in-memory copy of the stored page. -/
def fileReadPage (disk : Disk) (fid pno : Nat) : Page × Disk :=
  let fd := diskGetFile disk fid
  ((assocLookup fd.pages pno).getD { page_number := pno, data := 0 },
   { disk with log := DiskOp.readP fid pno :: disk.log })

/-- `file->writePage(page)`: persist the page at its own page number. -/
def fileWritePage (disk : Disk) (fid : Nat) (p : Page) : Disk :=
  let fd := diskGetFile disk fid
  { diskSetFile disk fid { fd with pages := (p.page_number, p) :: fd.pages } with
      log := DiskOp.writeP fid p.page_number :: disk.log }

/-- `file->deletePage(pageNo)`. -/
def fileDeletePage (disk : Disk) (fid pno : Nat) : Disk :=
  let fd := diskGetFile disk fid
  { diskSetFile disk fid { fd with pages := fd.pages.filter (fun e => decide (e.1 ≠ pno)) } with
      log := DiskOp.deleteP fid pno :: disk.log }

/-- One frame descriptor (class BufDesc of buffer.h).  `file` is the
non-owning back reference to the owning file (0 = null). -/
structure BufDesc where
  frameNo : Nat
  file : Nat
  pageNo : Nat
  valid : Bool
  refbit : Bool
  dirty : Bool
  pinCnt : Nat
deriving DecidableEq, Repr

instance : Inhabited BufDesc :=
  ⟨{ frameNo := 0, file := 0, pageNo := 0, valid := false, refbit := false,
     dirty := false, pinCnt := 0 }⟩

/-- Modelled from the spec: `BufDesc::Clear()` of buffer.h (the header is
not under src/).  Per the spec, Clear resets a descriptor to
invalid / unpinned / clean / unreferenced. -/
def BufDesc.Clear (d : BufDesc) : BufDesc :=
  { d with valid := false, pinCnt := 0, dirty := false, refbit := false }

/-- Modelled from the spec: `BufDesc::Set(file, pageNo)` of buffer.h (the
header is not under src/).  Per the spec, Set transitions a frame to
valid / pinned-once / clean / referenced for the given (file, page). -/
def BufDesc.Set (d : BufDesc) (fid pno : Nat) : BufDesc :=
  { d with file := fid, pageNo := pno, valid := true, refbit := true,
           dirty := false, pinCnt := 1 }

/-- Manager state: descriptor table, buffer pool, cache index and clock
hand (fields of class BufMgr). -/
structure BufState where
  numBufs : Nat
  bufDescTable : List BufDesc
  bufPool : List Page
  hashTable : List ((Nat × Nat) × Nat)
  clockHand : Nat
deriving DecidableEq, Repr

def descAt (st : BufState) (i : Nat) : BufDesc :=
  st.bufDescTable.getD i default

def poolAt (st : BufState) (i : Nat) : Page :=
  st.bufPool.getD i default

def setDesc (st : BufState) (i : Nat) (d : BufDesc) : BufState :=
  { st with bufDescTable := st.bufDescTable.set i d }

def setPool (st : BufState) (i : Nat) (p : Page) : BufState :=
  { st with bufPool := st.bufPool.set i p }

/-- Clear the descriptor of frame `i` in place (`bufDescTable[i].Clear()`). -/
def clearFrame (st : BufState) (i : Nat) : BufState :=
  setDesc st i (descAt st i).Clear

/-- Modelled from the spec: `BufHashTbl::lookup` of bufHashTbl.h (not under
src/); first-match lookup of (file, pageNo), its not-found signal becoming
`none`. -/
def hashLookup : List ((Nat × Nat) × Nat) → Nat → Nat → Option Nat
  | [], _, _ => none
  | (k, v) :: rest, fid, pno => if k = (fid, pno) then some v else hashLookup rest fid pno

/-- Modelled from the spec: `BufHashTbl::insert` of bufHashTbl.h (not under
src/). -/
def hashInsert (ht : List ((Nat × Nat) × Nat)) (fid pno f : Nat) : List ((Nat × Nat) × Nat) :=
  ((fid, pno), f) :: ht

/-- Modelled from the spec: `BufHashTbl::remove` of bufHashTbl.h (not under
src/). -/
def hashRemove (ht : List ((Nat × Nat) × Nat)) (fid pno : Nat) : List ((Nat × Nat) × Nat) :=
  ht.filter (fun e => decide (e.1 ≠ (fid, pno)))

/-- Evict frame `i`: remove its index entry, then clear its descriptor
(the victim steps of `allocBuf` and `flushFile`). -/
def evictFrame (st : BufState) (i : Nat) : BufState :=
  setDesc { st with hashTable := hashRemove st.hashTable (descAt st i).file (descAt st i).pageNo } i (descAt st i).Clear

/-- `BufMgr::BufMgr(bufs)`: all descriptors start invalid with their frame
number set; the clock hand starts at `bufs - 1`. -/
def mkBufMgr (bufs : Nat) : BufState :=
  { numBufs := bufs
    bufDescTable := (List.range bufs).map (fun i =>
      { frameNo := i, file := 0, pageNo := 0, valid := false, refbit := false,
        dirty := false, pinCnt := 0 })
    bufPool := (List.range bufs).map (fun _ => default)
    hashTable := []
    clockHand := bufs - 1 }

/-- `BufMgr::advanceClock()`. -/
def advanceClock (st : BufState) : BufState :=
  { st with clockHand := (st.clockHand + 1) % st.numBufs }

/-- Number of clock advances needed to move from position `w` to position
`u` on a ring of `n` frames (0 when already there); used to measure the
progress of the clock sweep. -/
def clockDist (n w u : Nat) : Nat :=
  if w ≤ u then u - w else u + n - w

/-- Error kinds: the exception classes thrown by the manager. -/
inductive BufError where
  | bufferExhausted
  | pageNotPinned
  | pagePinned
  | badBuffer
deriving DecidableEq, Repr

/-- Result of an operation: on success a value plus the new manager and
disk state; on error the error kind plus the manager and disk state at the
throw point (C++ exceptions leave earlier mutations in place). -/
inductive Res (α : Type) where
  | ok (val : α) (st : BufState) (disk : Disk)
  | err (e : BufError) (st : BufState) (disk : Disk)
deriving DecidableEq, Repr

def Res.state {α : Type} : Res α → BufState
  | .ok _ s _ => s
  | .err _ s _ => s

def Res.diskOf {α : Type} : Res α → Disk
  | .ok _ _ d => d
  | .err _ _ d => d

/-- One iteration of the `while(true)` loop of `BufMgr::allocBuf`, with
explicit fuel (`none` = fuel exhausted; the fuel in `allocBuf` is shown
sufficient below).  `count` is the running count of consecutively pinned
frames; reaching `numBufs` throws BufferExceededException. -/
def allocBufLoop : Nat → Nat → BufState → Disk → Option (Res Nat)
  | 0, _, _, _ => none
  | fuel + 1, count, st0, disk =>
    let st := advanceClock st0
    let d := descAt st st.clockHand
    if d.pinCnt > 0 ∧ count + 1 = st.numBufs then
      some (.err .bufferExhausted st disk)
    else
      let count1 := if d.pinCnt > 0 then count + 1 else 0
      if d.valid = false then
        some (.ok st.clockHand (setDesc st st.clockHand d.Clear) disk)
      else if d.refbit = true then
        allocBufLoop fuel count1 (setDesc st st.clockHand { d with refbit := false }) disk
      else if d.pinCnt ≠ 0 then
        allocBufLoop fuel count1 st disk
      else
        let disk1 := if d.dirty = true then fileWritePage disk d.file (poolAt st st.clockHand) else disk
        let st1 := { st with hashTable := hashRemove st.hashTable d.file d.pageNo }
        some (.ok st.clockHand (setDesc st1 st.clockHand d.Clear) disk1)

/-- `BufMgr::allocBuf`: the clock loop, run with enough fuel for the worst
case (one lap of second chances plus one more lap, see the completeness
lemmas). -/
def allocBuf (st : BufState) (disk : Disk) : Option (Res Nat) :=
  allocBufLoop (2 * st.numBufs + 1) 0 st disk

/-- `BufMgr::readPage(file, pageNo, page)`: the returned value is the frame
number whose pool slot the out-pointer `page` is made to reference. -/
def readPage (st : BufState) (disk : Disk) (fid pno : Nat) : Option (Res Nat) :=
  match hashLookup st.hashTable fid pno with
  | some f =>
    let d := descAt st f
    some (.ok f (setDesc st f { d with refbit := true, pinCnt := d.pinCnt + 1 }) disk)
  | none =>
    match allocBuf st disk with
    | none => none
    | some (.err e st1 disk1) => some (.err e st1 disk1)
    | some (.ok f st1 disk1) =>
      let p := (fileReadPage disk1 fid pno).1
      let disk2 := (fileReadPage disk1 fid pno).2
      let st2 := setPool st1 f p
      let st3 := { st2 with hashTable := hashInsert st2.hashTable fid pno f }
      let st4 := setDesc st3 f ((descAt st3 f).Set fid pno)
      some (.ok f st4 disk2)

/-- `BufMgr::unPinPage(file, pageNo, dirty)`. -/
def unPinPage (st : BufState) (disk : Disk) (fid pno : Nat) (dirty : Bool) : Res Unit :=
  match hashLookup st.hashTable fid pno with
  | none => .ok () st disk
  | some f =>
    let d := descAt st f
    if d.pinCnt = 0 then .err .pageNotPinned st disk
    else
      let d1 := if d.pinCnt > 0 then { d with pinCnt := d.pinCnt - 1 } else d
      let d2 := if dirty = true then { d1 with dirty := true } else d1
      .ok () (setDesc st f d2) disk

/-- `BufMgr::allocPage(file, pageNo, page)`: the returned value is the pair
(new page number, frame number). -/
def allocPage (st : BufState) (disk : Disk) (fid : Nat) : Option (Res (Nat × Nat)) :=
  let np := (fileAllocatePage disk fid).1
  let disk1 := (fileAllocatePage disk fid).2
  match allocBuf st disk1 with
  | none => none
  | some (.err e st1 disk2) => some (.err e st1 disk2)
  | some (.ok f st1 disk2) =>
    let pno := np.page_number
    let st2 := setPool st1 f np
    let st3 := { st2 with hashTable := hashInsert st2.hashTable fid pno f }
    let st4 := setDesc st3 f ((descAt st3 f).Set fid pno)
    some (.ok (pno, f) st4 disk2)

/-- The body of the `for` loop of `BufMgr::flushFile`, iterating frames
`i, i+1, ...` while `remaining` frames are left. -/
def flushLoop (st : BufState) (disk : Disk) : Nat → Nat → Res Unit
  | 0, _ => .ok () st disk
  | remaining + 1, i =>
    let d := descAt st i
    if d.valid = false then .err .badBuffer st disk
    else if d.pinCnt > 0 then .err .pagePinned st disk
    else
      let disk1 := if d.dirty = true then fileWritePage disk d.file (poolAt st d.frameNo) else disk
      let stA := if d.dirty = true then setDesc st i { d with dirty := false } else st
      flushLoop (evictFrame stA i) disk1 remaining (i + 1)

/-- `BufMgr::flushFile(file)`.  Note the source scans the whole descriptor
table regardless of the `file` argument, which is used only in the
exception payload. -/
def flushFile (st : BufState) (disk : Disk) (_fid : Nat) : Res Unit :=
  flushLoop st disk st.numBufs 0

/-- `BufMgr::disposePage(file, PageNo)`.  The catch of
HashNotFoundException swallows a lookup miss; note that `deletePage` sits
inside the try, after the throwing lookup. -/
def disposePage (st : BufState) (disk : Disk) (fid pno : Nat) : Res Unit :=
  match hashLookup st.hashTable fid pno with
  | none => .ok () st disk
  | some f =>
    let st1 := setDesc st f ((descAt st f).Clear)
    let d1 := descAt st1 f
    let st2 := { st1 with hashTable := hashRemove st1.hashTable d1.file d1.pageNo }
    .ok () st2 (fileDeletePage disk fid pno)

/-- The disk effect of `k` iterations of the flush scan starting at frame
`i`, read off the entry state: each dirty frame in scan order is written
back through the file collaborator exactly as the loop body does
(`writePage(bufPool[bufDescTable[i].frameNo])`).  Used to characterize the
disk left behind by a failing `flushFile`. -/
def flushWrites (st : BufState) : Disk → Nat → Nat → Disk
  | disk, 0, _ => disk
  | disk, r + 1, i =>
    let d := descAt st i
    flushWrites st (if d.dirty = true then fileWritePage disk d.file (poolAt st d.frameNo) else disk) r (i + 1)

/-! ### Concrete fixtures used to exercise the theorems -/

/-- The empty disk. -/
def disk0 : Disk := ⟨[], []⟩

/-- A two-frame pool in which both frames are valid and pinned; frame 0
still carries its reference bit. -/
def stPinned : BufState :=
  { numBufs := 2
    bufDescTable :=
      [{ frameNo := 0, file := 1, pageNo := 10, valid := true, refbit := true,
         dirty := false, pinCnt := 1 },
       { frameNo := 1, file := 1, pageNo := 11, valid := true, refbit := false,
         dirty := false, pinCnt := 1 }]
    bufPool := [⟨10, 0⟩, ⟨11, 0⟩]
    hashTable := [((1, 10), 0), ((1, 11), 1)]
    clockHand := 1 }

/-- `stPinned` after a failing `allocBuf`: the reference bit of frame 0
has been cleared by the sweep. -/
def stPinnedAfter : BufState :=
  { numBufs := 2
    bufDescTable :=
      [{ frameNo := 0, file := 1, pageNo := 10, valid := true, refbit := false,
         dirty := false, pinCnt := 1 },
       { frameNo := 1, file := 1, pageNo := 11, valid := true, refbit := false,
         dirty := false, pinCnt := 1 }]
    bufPool := [⟨10, 0⟩, ⟨11, 0⟩]
    hashTable := [((1, 10), 0), ((1, 11), 1)]
    clockHand := 1 }

/-- The disk after allocating one page of file 1 on the empty disk. -/
def diskAlloc1 : Disk :=
  { files := [(1, { nextPage := 1, pages := [(0, ⟨0, 0⟩)] })]
    log := [DiskOp.allocP 1 0] }

/-- A two-frame pool: frame 0 valid, clean and unpinned; frame 1 valid and
pinned. -/
def stFlush : BufState :=
  { numBufs := 2
    bufDescTable :=
      [{ frameNo := 0, file := 1, pageNo := 10, valid := true, refbit := false,
         dirty := false, pinCnt := 0 },
       { frameNo := 1, file := 1, pageNo := 11, valid := true, refbit := false,
         dirty := false, pinCnt := 1 }]
    bufPool := [⟨10, 0⟩, ⟨11, 0⟩]
    hashTable := [((1, 10), 0), ((1, 11), 1)]
    clockHand := 1 }

/-- `stFlush` after the failing `flushFile`: frame 0 has already been
cleared and unindexed when the pinned frame 1 raises page-pinned. -/
def stFlushAfter : BufState :=
  { numBufs := 2
    bufDescTable :=
      [{ frameNo := 0, file := 1, pageNo := 10, valid := false, refbit := false,
         dirty := false, pinCnt := 0 },
       { frameNo := 1, file := 1, pageNo := 11, valid := true, refbit := false,
         dirty := false, pinCnt := 1 }]
    bufPool := [⟨10, 0⟩, ⟨11, 0⟩]
    hashTable := [((1, 11), 1)]
    clockHand := 1 }

/-- The manager state after `allocPage (mkBufMgr 1) disk0 1`. -/
def stAlloc1 : BufState :=
  { numBufs := 1
    bufDescTable :=
      [{ frameNo := 0, file := 1, pageNo := 0, valid := true, refbit := true,
         dirty := false, pinCnt := 1 }]
    bufPool := [⟨0, 0⟩]
    hashTable := [((1, 0), 0)]
    clockHand := 0 }

/-- Like `stFlush` but with the unpinned frame 0 dirty, so the failing
flush must write it back before the pinned frame 1 aborts the scan. -/
def stFlushDirty : BufState :=
  { numBufs := 2
    bufDescTable :=
      [{ frameNo := 0, file := 1, pageNo := 10, valid := true, refbit := false,
         dirty := true, pinCnt := 0 },
       { frameNo := 1, file := 1, pageNo := 11, valid := true, refbit := false,
         dirty := false, pinCnt := 1 }]
    bufPool := [⟨10, 0⟩, ⟨11, 0⟩]
    hashTable := [((1, 10), 0), ((1, 11), 1)]
    clockHand := 1 }

/-- `stFlushDirty` after the failing `flushFile`: frame 0 written back,
cleared and unindexed before frame 1 raises page-pinned. -/
def stFlushDirtyAfter : BufState :=
  { numBufs := 2
    bufDescTable :=
      [{ frameNo := 0, file := 1, pageNo := 10, valid := false, refbit := false,
         dirty := false, pinCnt := 0 },
       { frameNo := 1, file := 1, pageNo := 11, valid := true, refbit := false,
         dirty := false, pinCnt := 1 }]
    bufPool := [⟨10, 0⟩, ⟨11, 0⟩]
    hashTable := [((1, 11), 1)]
    clockHand := 1 }

/-- The disk after the failing `flushFile` on `stFlushDirty`: page 10 of
file 1 has been written back (the only collaborator call). -/
def diskFlushDirtyAfter : Disk :=
  { files := [(1, { nextPage := 0, pages := [(10, ⟨10, 0⟩)] })]
    log := [DiskOp.writeP 1 10] }

/-! ### Basic lemmas about the state accessors -/

theorem descAt_setDesc_self (st : BufState) (i : Nat) (d : BufDesc)
    (h : i < st.bufDescTable.length) : descAt (setDesc st i d) i = d := by
  simp [descAt, setDesc, List.getD_eq_getElem?_getD, List.getElem?_set_eq_of_lt d h]

theorem descAt_setDesc_ne (st : BufState) (i j : Nat) (d : BufDesc)
    (h : i ≠ j) : descAt (setDesc st i d) j = descAt st j := by
  simp [descAt, setDesc, List.getD_eq_getElem?_getD, List.getElem?_set_ne h]

@[simp] theorem setDesc_numBufs (st : BufState) (i : Nat) (d : BufDesc) :
    (setDesc st i d).numBufs = st.numBufs := rfl

@[simp] theorem setDesc_hashTable (st : BufState) (i : Nat) (d : BufDesc) :
    (setDesc st i d).hashTable = st.hashTable := rfl

@[simp] theorem setDesc_bufPool (st : BufState) (i : Nat) (d : BufDesc) :
    (setDesc st i d).bufPool = st.bufPool := rfl

@[simp] theorem setDesc_clockHand (st : BufState) (i : Nat) (d : BufDesc) :
    (setDesc st i d).clockHand = st.clockHand := rfl

@[simp] theorem setDesc_length (st : BufState) (i : Nat) (d : BufDesc) :
    (setDesc st i d).bufDescTable.length = st.bufDescTable.length := by
  simp [setDesc]

@[simp] theorem setPool_numBufs (st : BufState) (i : Nat) (p : Page) :
    (setPool st i p).numBufs = st.numBufs := rfl

@[simp] theorem setPool_hashTable (st : BufState) (i : Nat) (p : Page) :
    (setPool st i p).hashTable = st.hashTable := rfl

@[simp] theorem setPool_bufDescTable (st : BufState) (i : Nat) (p : Page) :
    (setPool st i p).bufDescTable = st.bufDescTable := rfl

@[simp] theorem descAt_setPool (st : BufState) (i j : Nat) (p : Page) :
    descAt (setPool st i p) j = descAt st j := rfl

@[simp] theorem setPool_length (st : BufState) (i : Nat) (p : Page) :
    (setPool st i p).bufPool.length = st.bufPool.length := by
  simp [setPool]

@[simp] theorem advanceClock_numBufs (st : BufState) :
    (advanceClock st).numBufs = st.numBufs := rfl

@[simp] theorem advanceClock_hashTable (st : BufState) :
    (advanceClock st).hashTable = st.hashTable := rfl

@[simp] theorem advanceClock_bufPool (st : BufState) :
    (advanceClock st).bufPool = st.bufPool := rfl

@[simp] theorem advanceClock_bufDescTable (st : BufState) :
    (advanceClock st).bufDescTable = st.bufDescTable := rfl

@[simp] theorem descAt_advanceClock (st : BufState) (i : Nat) :
    descAt (advanceClock st) i = descAt st i := rfl

@[simp] theorem advanceClock_clockHand (st : BufState) :
    (advanceClock st).clockHand = (st.clockHand + 1) % st.numBufs := rfl

/-! ### Basic lemmas about the hash index -/

theorem hashLookup_eq_none_iff (ht : List ((Nat × Nat) × Nat)) (a b : Nat) :
    hashLookup ht a b = none ↔ ∀ e ∈ ht, e.1 ≠ (a, b) := by
  induction ht with
  | nil => simp [hashLookup]
  | cons e rest ih =>
    obtain ⟨k, v⟩ := e
    by_cases hk : k = (a, b) <;> simp [hashLookup, hk, ih]

theorem hashLookup_mem (ht : List ((Nat × Nat) × Nat)) (a b v : Nat)
    (h : hashLookup ht a b = some v) : ((a, b), v) ∈ ht := by
  induction ht with
  | nil => simp [hashLookup] at h
  | cons e rest ih =>
    obtain ⟨k, w⟩ := e
    by_cases hk : k = (a, b)
    · subst hk
      simp [hashLookup] at h
      simp [h]
    · simp [hashLookup, hk] at h
      exact List.mem_cons_of_mem _ (ih h)

@[simp] theorem hashLookup_insert_self (ht : List ((Nat × Nat) × Nat)) (a b f : Nat) :
    hashLookup (hashInsert ht a b f) a b = some f := by
  simp [hashInsert, hashLookup]

theorem hashLookup_insert_ne (ht : List ((Nat × Nat) × Nat)) (a b f a2 b2 : Nat)
    (h : (a2, b2) ≠ (a, b)) :
    hashLookup (hashInsert ht a b f) a2 b2 = hashLookup ht a2 b2 := by
  simp only [hashInsert, hashLookup]
  rw [if_neg]
  intro hc
  exact h (by simpa using hc.symm)

theorem mem_hashRemove (ht : List ((Nat × Nat) × Nat)) (a b : Nat)
    (e : (Nat × Nat) × Nat) : e ∈ hashRemove ht a b ↔ e ∈ ht ∧ e.1 ≠ (a, b) := by
  simp [hashRemove, List.mem_filter]

@[simp] theorem hashLookup_remove_self (ht : List ((Nat × Nat) × Nat)) (a b : Nat) :
    hashLookup (hashRemove ht a b) a b = none := by
  rw [hashLookup_eq_none_iff]
  intro e he
  exact ((mem_hashRemove ht a b e).1 he).2

theorem hashLookup_remove_ne (ht : List ((Nat × Nat) × Nat)) (a b a2 b2 : Nat)
    (h : (a2, b2) ≠ (a, b)) :
    hashLookup (hashRemove ht a b) a2 b2 = hashLookup ht a2 b2 := by
  induction ht with
  | nil => simp [hashRemove, hashLookup]
  | cons e rest ih =>
    obtain ⟨k, v⟩ := e
    by_cases hk : k = (a, b)
    · subst hk
      have : hashRemove (((a, b), v) :: rest) a b = hashRemove rest a b := by
        simp [hashRemove]
      rw [this, ih, hashLookup, if_neg]
      intro hc
      exact h hc.symm
    · have : hashRemove (((k, v)) :: rest) a b = ((k, v)) :: hashRemove rest a b := by
        simp [hashRemove, hk]
      rw [this]
      by_cases hk2 : k = (a2, b2)
      · subst hk2
        simp [hashLookup]
      · simp only [hashLookup, if_neg hk2]
        exact ih

theorem hashRemove_sublist (ht : List ((Nat × Nat) × Nat)) (a b : Nat) :
    (hashRemove ht a b).Sublist ht :=
  List.filter_sublist ht

theorem hashLookup_remove_none (ht : List ((Nat × Nat) × Nat)) (a b a2 b2 : Nat)
    (h : hashLookup ht a2 b2 = none) :
    hashLookup (hashRemove ht a b) a2 b2 = none := by
  rw [hashLookup_eq_none_iff] at h ⊢
  intro e he
  exact h e ((mem_hashRemove ht a b e).1 he).1

/-! ### The spec data-model invariant and well-formedness -/

/-- One cache-index entry is consistent: it names an in-range frame whose
descriptor is valid and holds exactly the entry's (file, pageNo). -/
def entryOK (st : BufState) (e : (Nat × Nat) × Nat) : Prop :=
  e.2 < st.numBufs ∧ (descAt st e.2).valid = true ∧
    (descAt st e.2).file = e.1.1 ∧ (descAt st e.2).pageNo = e.1.2

instance (st : BufState) (e : (Nat × Nat) × Nat) : Decidable (entryOK st e) := by
  unfold entryOK
  infer_instance

/-- The spec invariant tying cache index and descriptor table together:
every index entry corresponds to a valid descriptor holding exactly that
(file, pageNo); every valid descriptor is found by index lookup at its own
(file, pageNo); index keys are unique and no two entries share a frame;
and an invalid descriptor is unpinned and clean. -/
def BufInv (st : BufState) : Prop :=
  (∀ e ∈ st.hashTable, entryOK st e) ∧
  (∀ i, i < st.numBufs → (descAt st i).valid = true →
    hashLookup st.hashTable (descAt st i).file (descAt st i).pageNo = some i) ∧
  (st.hashTable.map (fun e => e.1)).Nodup ∧
  (st.hashTable.map (fun e => e.2)).Nodup ∧
  (∀ i, i < st.numBufs → (descAt st i).valid = false →
    (descAt st i).pinCnt = 0 ∧ (descAt st i).dirty = false)

instance (st : BufState) : Decidable (BufInv st) := by
  unfold BufInv
  infer_instance

/-- Structural well-formedness of a manager state: positive capacity,
table and pool sized to the capacity, in-range clock hand, and each
descriptor carrying its own frame number. -/
def WF (st : BufState) : Prop :=
  0 < st.numBufs ∧ st.bufDescTable.length = st.numBufs ∧
  st.bufPool.length = st.numBufs ∧ st.clockHand < st.numBufs ∧
  (∀ i, i < st.numBufs → (descAt st i).frameNo = i)

instance (st : BufState) : Decidable (WF st) := by
  unfold WF
  infer_instance

/-- `st` differs from `st0` at most by cleared reference bits (and the
clock hand): the cache index, pool, capacity and every other descriptor
field agree. -/
def RefOnly (st0 st : BufState) : Prop :=
  st.numBufs = st0.numBufs ∧ st.hashTable = st0.hashTable ∧
  st.bufPool = st0.bufPool ∧
  st.bufDescTable.length = st0.bufDescTable.length ∧
  ∀ i, descAt st i = descAt st0 i ∨ descAt st i = { descAt st0 i with refbit := false }

theorem RefOnly.refl (st : BufState) : RefOnly st st :=
  ⟨rfl, rfl, rfl, rfl, fun _ => Or.inl rfl⟩

theorem RefOnly.advance (st0 st : BufState) (h : RefOnly st0 st) :
    RefOnly st0 (advanceClock st) :=
  ⟨h.1, h.2.1, h.2.2.1, h.2.2.2.1, h.2.2.2.2⟩

theorem RefOnly.clearRef (st0 st : BufState) (i : Nat)
    (h : RefOnly st0 st) (hi : i < st.bufDescTable.length) :
    RefOnly st0 (setDesc st i { descAt st i with refbit := false }) := by
  obtain ⟨h1, h2, h3, h4, h5⟩ := h
  refine ⟨h1, h2, h3, by simpa using h4, fun j => ?_⟩
  by_cases hj : j = i
  · subst hj
    rw [descAt_setDesc_self st j _ hi]
    rcases h5 j with h | h <;> rw [h] <;> simp
  · rw [descAt_setDesc_ne st i j _ (fun hc => hj hc.symm)]
    exact h5 j

/-- Descriptor fields other than the reference bit transfer along
`RefOnly`. -/
theorem RefOnly.fields (st0 st : BufState) (h : RefOnly st0 st) (i : Nat) :
    (descAt st i).valid = (descAt st0 i).valid ∧
    (descAt st i).dirty = (descAt st0 i).dirty ∧
    (descAt st i).pinCnt = (descAt st0 i).pinCnt ∧
    (descAt st i).file = (descAt st0 i).file ∧
    (descAt st i).pageNo = (descAt st0 i).pageNo ∧
    (descAt st i).frameNo = (descAt st0 i).frameNo := by
  rcases h.2.2.2.2 i with hd | hd <;> rw [hd] <;> simp

/-- The invariant only reads fields untouched by `RefOnly`, so it
transfers along it. -/
theorem BufInv.of_refOnly (st0 st : BufState) (h : RefOnly st0 st) (hInv : BufInv st0) :
    BufInv st := by
  obtain ⟨h1, h2, h3, h4, h5⟩ := hInv
  have e1 := h.1
  have e2 := h.2.1
  refine ⟨?_, ?_, by rw [e2]; exact h3, by rw [e2]; exact h4, ?_⟩
  · intro e he
    rw [e2] at he
    obtain ⟨g1, g2, g3, g4⟩ := h1 e he
    obtain ⟨f1, f2, f3, f4, f5, f6⟩ := RefOnly.fields st0 st h e.2
    exact ⟨by rw [e1]; exact g1, by rw [f1]; exact g2, by rw [f4]; exact g3,
      by rw [f5]; exact g4⟩
  · intro i hi hv
    obtain ⟨f1, f2, f3, f4, f5, f6⟩ := RefOnly.fields st0 st h i
    rw [e2, f4, f5]
    exact h2 i (by rw [e1] at hi; exact hi) (by rw [f1] at hv; exact hv)
  · intro i hi hv
    obtain ⟨f1, f2, f3, f4, f5, f6⟩ := RefOnly.fields st0 st h i
    rw [f3, f2]
    exact h5 i (by rw [e1] at hi; exact hi) (by rw [f1] at hv; exact hv)

/-! ### The clock loop: error path -/

theorem RefOnly.trans (a b c : BufState) (hab : RefOnly a b) (hbc : RefOnly b c) :
    RefOnly a c := by
  obtain ⟨a1, a2, a3, a4, a5⟩ := hab
  obtain ⟨b1, b2, b3, b4, b5⟩ := hbc
  refine ⟨b1.trans a1, b2.trans a2, b3.trans a3, b4.trans a4, fun i => ?_⟩
  rcases b5 i with hb | hb <;> rcases a5 i with ha | ha
  · exact Or.inl (hb.trans ha)
  · exact Or.inr (hb.trans ha)
  · exact Or.inr (by rw [hb, ha])
  · exact Or.inr (by rw [hb, ha])

/-- If the table is empty-sized, every descriptor reads as the default,
hence invalid. -/
theorem descAt_valid_of_len_zero (st : BufState) (h : st.bufDescTable.length = 0)
    (i : Nat) : (descAt st i).valid = false := by
  have he : st.bufDescTable = [] := List.length_eq_zero.mp h
  simp [descAt, he]
  rfl

/-- If the clock loop throws, the error is buffer-exhausted, the disk is
untouched, and the manager state differs from the initial one only by
cleared reference bits (and the clock hand). -/
theorem allocBufLoop_err (fuel : Nat) :
    ∀ count st disk e st2 disk2,
      allocBufLoop fuel count st disk = some (.err e st2 disk2) →
      st.bufDescTable.length = st.numBufs →
      e = .bufferExhausted ∧ disk2 = disk ∧ RefOnly st st2 ∧
        st2.clockHand < st2.numBufs := by
  induction fuel with
  | zero =>
    intro count st disk e st2 disk2 h hlen
    simp [allocBufLoop] at h
  | succ fuel ih =>
    intro count st disk e st2 disk2 h hlen
    rw [allocBufLoop] at h
    by_cases hc1 : (descAt (advanceClock st) (advanceClock st).clockHand).pinCnt > 0 ∧
        count + 1 = (advanceClock st).numBufs
    · rw [if_pos hc1] at h
      simp only [Option.some.injEq, Res.err.injEq] at h
      obtain ⟨he, hst, hdk⟩ := h
      have hnpos : 0 < st.numBufs := by
        have := hc1.2
        simp only [advanceClock_numBufs] at this
        omega
      refine ⟨he.symm, hdk.symm, hst ▸ RefOnly.advance st st (RefOnly.refl st), ?_⟩
      rw [← hst]
      simp only [advanceClock_clockHand, advanceClock_numBufs]
      exact Nat.mod_lt _ hnpos
    · rw [if_neg hc1] at h
      by_cases hc2 : (descAt (advanceClock st) (advanceClock st).clockHand).valid = false
      · rw [if_pos hc2] at h
        exact absurd h (by simp)
      · rw [if_neg hc2] at h
        have hn : 0 < st.numBufs := by
          rcases Nat.eq_zero_or_pos st.numBufs with h0 | h0
          · exact absurd (descAt_valid_of_len_zero (advanceClock st)
              (by simpa [h0] using hlen) (advanceClock st).clockHand) hc2
          · exact h0
        have hclk : (advanceClock st).clockHand < (advanceClock st).bufDescTable.length := by
          simp only [advanceClock_bufDescTable, advanceClock_clockHand]
          rw [hlen]
          exact Nat.mod_lt _ hn
        by_cases hc3 : (descAt (advanceClock st) (advanceClock st).clockHand).refbit = true
        · rw [if_pos hc3] at h
          obtain ⟨he, hdk, hro, hck⟩ := ih _ _ _ _ _ _ h (by simpa using hlen)
          refine ⟨he, hdk, RefOnly.trans st _ st2 ?_ hro, hck⟩
          exact RefOnly.clearRef st (advanceClock st) (advanceClock st).clockHand
            (RefOnly.advance st st (RefOnly.refl st)) hclk
        · rw [if_neg hc3] at h
          by_cases hc4 : (descAt (advanceClock st) (advanceClock st).clockHand).pinCnt ≠ 0
          · rw [if_pos hc4] at h
            obtain ⟨he, hdk, hro, hck⟩ := ih _ _ _ _ _ _ h (by simpa using hlen)
            exact ⟨he, hdk, RefOnly.trans st _ st2
              (RefOnly.advance st st (RefOnly.refl st)) hro, hck⟩
          · rw [if_neg hc4] at h
            exact absurd h (by simp)

/-! ### The clock loop: success path -/

/-- Clearing an invalid descriptor only clears its reference bit, because
under the invariant an invalid frame is already unpinned and clean. -/
theorem refOnly_clear_invalid (st : BufState) (i : Nat) (hInv : BufInv st)
    (hi : i < st.bufDescTable.length) (hib : i < st.numBufs)
    (hv : (descAt st i).valid = false) :
    RefOnly st (setDesc st i (descAt st i).Clear) := by
  have h5 := hInv.2.2.2.2 i hib hv
  have hclear : (descAt st i).Clear = { descAt st i with refbit := false } := by
    simp [BufDesc.Clear, hv, h5.1, h5.2]
  refine ⟨rfl, rfl, rfl, by simp, fun j => ?_⟩
  by_cases hj : j = i
  · subst hj
    rw [descAt_setDesc_self st j _ hi, hclear]
    exact Or.inr rfl
  · rw [descAt_setDesc_ne st i j _ (fun hc => hj hc.symm)]
    exact Or.inl rfl

/-- Evicting a valid frame (removing its index entry and clearing its
descriptor) preserves the invariant. -/
theorem BufInv_evict (st : BufState) (i : Nat) (hInv : BufInv st)
    (hlen : st.bufDescTable.length = st.numBufs) (hib : i < st.numBufs)
    (hv : (descAt st i).valid = true) :
    BufInv (evictFrame st i) := by
  obtain ⟨h1, h2, h3, h4, h5⟩ := hInv
  set d := descAt st i with hd
  set stx := evictFrame st i with hstx
  have hstx2 : stx = setDesc { st with hashTable := hashRemove st.hashTable d.file d.pageNo } i d.Clear := rfl
  have hilen : i < ({ st with hashTable := hashRemove st.hashTable d.file d.pageNo } : BufState).bufDescTable.length := by
    simpa [hlen] using hib
  have hdesc_i : descAt stx i = d.Clear := by
    rw [hstx2]
    exact descAt_setDesc_self _ i _ hilen
  have hdesc_ne : ∀ j, j ≠ i → descAt stx j = descAt st j := by
    intro j hj
    rw [hstx2, descAt_setDesc_ne _ i j _ (fun hc => hj hc.symm)]
    rfl
  have hht : stx.hashTable = hashRemove st.hashTable d.file d.pageNo := rfl
  have hnum : stx.numBufs = st.numBufs := rfl
  refine ⟨?_, ?_, ?_, ?_, ?_⟩
  · intro e he
    simp only [entryOK]
    rw [hht] at he
    obtain ⟨hmem, hkey⟩ := (mem_hashRemove _ _ _ e).1 he
    obtain ⟨g1, g2, g3, g4⟩ := h1 e hmem
    have hne : e.2 ≠ i := by
      intro hc
      apply hkey
      rw [hc] at g3 g4
      rw [Prod.ext_iff]
      exact ⟨g3.symm, g4.symm⟩
    rw [hnum]
    exact ⟨g1, by rw [hdesc_ne e.2 hne]; exact g2, by rw [hdesc_ne e.2 hne]; exact g3,
      by rw [hdesc_ne e.2 hne]; exact g4⟩
  · intro j hj hvj
    rw [hnum] at hj
    by_cases hji : j = i
    · subst hji
      rw [hdesc_i] at hvj
      simp [BufDesc.Clear] at hvj
    · rw [hdesc_ne j hji] at hvj ⊢
      have hkey : ((descAt st j).file, (descAt st j).pageNo) ≠ (d.file, d.pageNo) := by
        intro hc
        have hlj := h2 j hj hvj
        have hli := h2 i hib hv
        rw [Prod.mk.injEq] at hc
        rw [hc.1, hc.2] at hlj
        exact hji (Option.some.inj (hlj.symm.trans hli)).symm.symm
      rw [hht, hashLookup_remove_ne _ _ _ _ _ hkey]
      exact h2 j hj hvj
  · rw [hht]
    exact List.Nodup.sublist (List.Sublist.map _ (hashRemove_sublist _ _ _)) h3
  · rw [hht]
    exact List.Nodup.sublist (List.Sublist.map _ (hashRemove_sublist _ _ _)) h4
  · intro j hj hvj
    rw [hnum] at hj
    by_cases hji : j = i
    · subst hji
      rw [hdesc_i]
      simp [BufDesc.Clear]
    · rw [hdesc_ne j hji] at hvj ⊢
      exact h5 j hj hvj

/-- If the clock loop returns a frame, there is an intermediate state
`stm` (the initial state with some reference bits cleared during the
sweep) such that the returned frame is the clock hand of `stm` and, at
selection time, was either invalid (then it is simply cleared and the
disk untouched) or valid with clear refbit and zero pin count (then it
is written back if dirty, its index entry removed, and cleared). -/
theorem allocBufLoop_ok (fuel : Nat) :
    ∀ count st disk f st2 disk2,
      allocBufLoop fuel count st disk = some (.ok f st2 disk2) →
      st.bufDescTable.length = st.numBufs → 0 < st.numBufs →
      ∃ stm, RefOnly st stm ∧ f = stm.clockHand ∧ f < st.numBufs ∧
        (((descAt stm f).valid = false ∧ st2 = clearFrame stm f ∧ disk2 = disk) ∨
         ((descAt stm f).valid = true ∧ (descAt stm f).refbit = false ∧
          (descAt stm f).pinCnt = 0 ∧ st2 = evictFrame stm f ∧
          disk2 = (if (descAt stm f).dirty = true then
            fileWritePage disk (descAt stm f).file (poolAt stm f) else disk))) := by
  induction fuel with
  | zero =>
    intro count st disk f st2 disk2 h hlen hn
    simp [allocBufLoop] at h
  | succ fuel ih =>
    intro count st disk f st2 disk2 h hlen hn
    rw [allocBufLoop] at h
    by_cases hc1 : (descAt (advanceClock st) (advanceClock st).clockHand).pinCnt > 0 ∧
        count + 1 = (advanceClock st).numBufs
    · rw [if_pos hc1] at h
      exact absurd h (by simp)
    · rw [if_neg hc1] at h
      by_cases hc2 : (descAt (advanceClock st) (advanceClock st).clockHand).valid = false
      · rw [if_pos hc2] at h
        simp only [Option.some.injEq, Res.ok.injEq] at h
        obtain ⟨hf, hst, hdk⟩ := h
        subst hf
        refine ⟨advanceClock st, RefOnly.advance st st (RefOnly.refl st), rfl,
          Nat.mod_lt _ hn, Or.inl ⟨hc2, hst.symm, hdk.symm⟩⟩
      · rw [if_neg hc2] at h
        have hclk : (advanceClock st).clockHand < (advanceClock st).bufDescTable.length := by
          simp only [advanceClock_bufDescTable, advanceClock_clockHand]
          rw [hlen]
          exact Nat.mod_lt _ hn
        by_cases hc3 : (descAt (advanceClock st) (advanceClock st).clockHand).refbit = true
        · rw [if_pos hc3] at h
          obtain ⟨stm, hro, hf, hfn, hdisc⟩ := ih _ _ _ _ _ _ h (by simpa using hlen)
            (by simpa using hn)
          refine ⟨stm, RefOnly.trans st _ stm (RefOnly.clearRef st (advanceClock st)
            (advanceClock st).clockHand (RefOnly.advance st st (RefOnly.refl st)) hclk) hro,
            hf, by simpa using hfn, hdisc⟩
        · rw [if_neg hc3] at h
          by_cases hc4 : (descAt (advanceClock st) (advanceClock st).clockHand).pinCnt ≠ 0
          · rw [if_pos hc4] at h
            obtain ⟨stm, hro, hf, hfn, hdisc⟩ := ih _ _ _ _ _ _ h (by simpa using hlen)
              (by simpa using hn)
            exact ⟨stm, RefOnly.trans st _ stm (RefOnly.advance st st (RefOnly.refl st)) hro,
              hf, by simpa using hfn, hdisc⟩
          · rw [if_neg hc4] at h
            simp only [Option.some.injEq, Res.ok.injEq] at h
            obtain ⟨hf, hst, hdk⟩ := h
            subst hf
            have hvv : (descAt (advanceClock st) (advanceClock st).clockHand).valid = true := by
              revert hc2
              cases (descAt (advanceClock st) (advanceClock st).clockHand).valid <;> simp
            have hrb : (descAt (advanceClock st) (advanceClock st).clockHand).refbit = false := by
              revert hc3
              cases (descAt (advanceClock st) (advanceClock st).clockHand).refbit <;> simp
            have hpc : (descAt (advanceClock st) (advanceClock st).clockHand).pinCnt = 0 :=
              Decidable.not_not.mp hc4
            exact ⟨advanceClock st, RefOnly.advance st st (RefOnly.refl st), rfl,
              Nat.mod_lt _ hn, Or.inr ⟨hvv, hrb, hpc, hst.symm, hdk.symm⟩⟩

@[simp] theorem BufDesc.Clear_frameNo (d : BufDesc) : d.Clear.frameNo = d.frameNo := rfl

@[simp] theorem BufDesc.Clear_valid (d : BufDesc) : d.Clear.valid = false := rfl

@[simp] theorem BufDesc.Clear_pinCnt (d : BufDesc) : d.Clear.pinCnt = 0 := rfl

@[simp] theorem BufDesc.Clear_dirty (d : BufDesc) : d.Clear.dirty = false := rfl

@[simp] theorem BufDesc.Clear_refbit (d : BufDesc) : d.Clear.refbit = false := rfl

@[simp] theorem BufDesc.Clear_file (d : BufDesc) : d.Clear.file = d.file := rfl

@[simp] theorem BufDesc.Clear_pageNo (d : BufDesc) : d.Clear.pageNo = d.pageNo := rfl

@[simp] theorem clearFrame_numBufs (st : BufState) (i : Nat) :
    (clearFrame st i).numBufs = st.numBufs := rfl

@[simp] theorem clearFrame_hashTable (st : BufState) (i : Nat) :
    (clearFrame st i).hashTable = st.hashTable := rfl

@[simp] theorem clearFrame_bufPool (st : BufState) (i : Nat) :
    (clearFrame st i).bufPool = st.bufPool := rfl

@[simp] theorem clearFrame_clockHand (st : BufState) (i : Nat) :
    (clearFrame st i).clockHand = st.clockHand := rfl

@[simp] theorem clearFrame_length (st : BufState) (i : Nat) :
    (clearFrame st i).bufDescTable.length = st.bufDescTable.length := by
  simp [clearFrame]

theorem descAt_clearFrame_self (st : BufState) (i : Nat) (h : i < st.bufDescTable.length) :
    descAt (clearFrame st i) i = (descAt st i).Clear :=
  descAt_setDesc_self st i _ h

theorem descAt_clearFrame_ne (st : BufState) (i j : Nat) (h : j ≠ i) :
    descAt (clearFrame st i) j = descAt st j :=
  descAt_setDesc_ne st i j _ (fun hc => h hc.symm)

@[simp] theorem evictFrame_numBufs (st : BufState) (i : Nat) :
    (evictFrame st i).numBufs = st.numBufs := rfl

@[simp] theorem evictFrame_hashTable (st : BufState) (i : Nat) :
    (evictFrame st i).hashTable =
      hashRemove st.hashTable (descAt st i).file (descAt st i).pageNo := rfl

@[simp] theorem evictFrame_bufPool (st : BufState) (i : Nat) :
    (evictFrame st i).bufPool = st.bufPool := rfl

@[simp] theorem evictFrame_clockHand (st : BufState) (i : Nat) :
    (evictFrame st i).clockHand = st.clockHand := rfl

@[simp] theorem evictFrame_length (st : BufState) (i : Nat) :
    (evictFrame st i).bufDescTable.length = st.bufDescTable.length := by
  simp [evictFrame]

theorem descAt_evictFrame_self (st : BufState) (i : Nat) (h : i < st.bufDescTable.length) :
    descAt (evictFrame st i) i = (descAt st i).Clear := by
  unfold evictFrame
  exact descAt_setDesc_self _ i _ (by simpa using h)

theorem descAt_evictFrame_ne (st : BufState) (i j : Nat) (h : j ≠ i) :
    descAt (evictFrame st i) j = descAt st j := by
  unfold evictFrame
  rw [descAt_setDesc_ne _ i j _ (fun hc => h hc.symm)]
  rfl

/-- Everything the rest of the development needs about a successful
`allocBuf` call: well-formedness and the invariant carry over, the frame
is in range and invalid afterwards, the pool is untouched, and index
lookups that missed before still miss. -/
theorem allocBuf_ok_props (st : BufState) (disk : Disk) (f : Nat) (st2 : BufState)
    (disk2 : Disk) (h : allocBuf st disk = some (.ok f st2 disk2))
    (hWF : WF st) (hInv : BufInv st) :
    WF st2 ∧ BufInv st2 ∧ f < st.numBufs ∧ st2.numBufs = st.numBufs ∧
    st2.bufDescTable.length = st.numBufs ∧ st2.bufPool = st.bufPool ∧
    (descAt st2 f).valid = false ∧
    (∀ a b, hashLookup st.hashTable a b = none → hashLookup st2.hashTable a b = none) := by
  obtain ⟨hn, hlen, hplen, hclkwf, hframe⟩ := hWF
  obtain ⟨stm, hro, hf, hfn, hdisc⟩ := allocBufLoop_ok _ _ _ _ _ _ _ h hlen hn
  have e1 : stm.numBufs = st.numBufs := hro.1
  have e2 : stm.hashTable = st.hashTable := hro.2.1
  have e3 : stm.bufPool = st.bufPool := hro.2.2.1
  have e4 : stm.bufDescTable.length = st.bufDescTable.length := hro.2.2.2.1
  have hInvm : BufInv stm := BufInv.of_refOnly st stm hro hInv
  have hlenm : stm.bufDescTable.length = stm.numBufs := by rw [e4, hlen, e1]
  have hfm : f < stm.numBufs := by rw [e1]; exact hfn
  have hflenm : f < stm.bufDescTable.length := by rw [hlenm]; exact hfm
  have hframem : ∀ i, i < st.numBufs → (descAt stm i).frameNo = i := by
    intro i hi
    rw [(RefOnly.fields st stm hro i).2.2.2.2.2]
    exact hframe i hi
  rcases hdisc with ⟨hv, hst2, hdk⟩ | ⟨hv, hrb, hpc, hst2, hdk⟩
  · subst hst2
    have hro2 : RefOnly stm (clearFrame stm f) :=
      refOnly_clear_invalid stm f hInvm hflenm hfm hv
    have hroAll : RefOnly st (clearFrame stm f) := RefOnly.trans st stm _ hro hro2
    refine ⟨?_, BufInv.of_refOnly st _ hroAll hInv, hfn, by simp [e1], by simp [e4, hlen],
      by simp [e3], by rw [descAt_clearFrame_self stm f hflenm]; simp,
      fun a b hnone => by simpa [e2] using hnone⟩
    refine ⟨by simpa [e1] using hn, by simp [e4, hlen, e1], by simp [e3, hplen, e1], ?_, ?_⟩
    · simp only [clearFrame_clockHand]
      rw [← hf]
      simpa [e1] using hfn
    · intro i hi
      simp only [clearFrame_numBufs, e1] at hi
      by_cases hif : i = f
      · subst hif
        rw [descAt_clearFrame_self stm i hflenm]
        simp
        exact hframem i hi
      · rw [descAt_clearFrame_ne stm f i hif]
        exact hframem i hi
  · subst hst2
    have hInv2 : BufInv (evictFrame stm f) := BufInv_evict stm f hInvm hlenm hfm hv
    refine ⟨?_, hInv2, hfn, by simp [e1], by simp [e4, hlen], by simp [e3],
      by rw [descAt_evictFrame_self stm f hflenm]; simp, ?_⟩
    · refine ⟨by simpa [e1] using hn, by simp [e4, hlen, e1], by simp [e3, hplen, e1], ?_, ?_⟩
      · simp only [evictFrame_clockHand]
        rw [← hf]
        simpa [e1] using hfn
      · intro i hi
        simp only [evictFrame_numBufs, e1] at hi
        by_cases hif : i = f
        · subst hif
          rw [descAt_evictFrame_self stm i hflenm]
          simp
          exact hframem i hi
        · rw [descAt_evictFrame_ne stm f i hif]
          exact hframem i hi
    · intro a b hnone
      simp only [evictFrame_hashTable, e2]
      exact hashLookup_remove_none _ _ _ _ _ (by simpa [e2] using hnone)

@[simp] theorem BufDesc.Set_frameNo (d : BufDesc) (a b : Nat) : (d.Set a b).frameNo = d.frameNo := rfl

@[simp] theorem BufDesc.Set_file (d : BufDesc) (a b : Nat) : (d.Set a b).file = a := rfl

@[simp] theorem BufDesc.Set_pageNo (d : BufDesc) (a b : Nat) : (d.Set a b).pageNo = b := rfl

@[simp] theorem BufDesc.Set_valid (d : BufDesc) (a b : Nat) : (d.Set a b).valid = true := rfl

@[simp] theorem BufDesc.Set_refbit (d : BufDesc) (a b : Nat) : (d.Set a b).refbit = true := rfl

@[simp] theorem BufDesc.Set_dirty (d : BufDesc) (a b : Nat) : (d.Set a b).dirty = false := rfl

@[simp] theorem BufDesc.Set_pinCnt (d : BufDesc) (a b : Nat) : (d.Set a b).pinCnt = 1 := rfl

/-- The invariant is preserved by an update of one descriptor that keeps
its valid bit, file and page number (e.g. the pin/refbit update of a hit,
or the unpin update), provided the index is untouched. -/
theorem BufInv_update_at (st stR : BufState) (f : Nat) (hInv : BufInv st)
    (hnum : stR.numBufs = st.numBufs)
    (hht : stR.hashTable = st.hashTable)
    (hdesc_ne : ∀ j, j ≠ f → descAt stR j = descAt st j)
    (hvalid : (descAt stR f).valid = (descAt st f).valid)
    (hfile : (descAt stR f).file = (descAt st f).file)
    (hpage : (descAt stR f).pageNo = (descAt st f).pageNo)
    (hpin_dirty : (descAt st f).valid = false →
      (descAt stR f).pinCnt = 0 ∧ (descAt stR f).dirty = false) :
    BufInv stR := by
  obtain ⟨h1, h2, h3, h4, h5⟩ := hInv
  refine ⟨?_, ?_, by rw [hht]; exact h3, by rw [hht]; exact h4, ?_⟩
  · intro e he
    rw [hht] at he
    obtain ⟨g1, g2, g3, g4⟩ := h1 e he
    simp only [entryOK, hnum]
    by_cases hef : e.2 = f
    · rw [hef] at g1 g2 g3 g4 ⊢
      exact ⟨g1, by rw [hvalid]; exact g2, by rw [hfile]; exact g3, by rw [hpage]; exact g4⟩
    · rw [hdesc_ne e.2 hef]
      exact ⟨g1, g2, g3, g4⟩
  · intro i hi hvi
    rw [hnum] at hi
    rw [hht]
    by_cases hif : i = f
    · subst hif
      rw [hvalid] at hvi
      rw [hfile, hpage]
      exact h2 i hi hvi
    · rw [hdesc_ne i hif] at hvi ⊢
      exact h2 i hi hvi
  · intro i hi hvi
    rw [hnum] at hi
    by_cases hif : i = f
    · subst hif
      rw [hvalid] at hvi
      exact hpin_dirty hvi
    · rw [hdesc_ne i hif] at hvi ⊢
      exact h5 i hi hvi

/-- The invariant is preserved by installing a page into an invalid frame:
inserting (file, pageNo) → f into the index and running Set on frame f,
provided (file, pageNo) was not cached. -/
theorem BufInv_install (st stR : BufState) (fid pno f : Nat) (hInv : BufInv st)
    (hfn : f < st.numBufs) (hv : (descAt st f).valid = false)
    (hmiss : hashLookup st.hashTable fid pno = none)
    (hnum : stR.numBufs = st.numBufs)
    (hht : stR.hashTable = hashInsert st.hashTable fid pno f)
    (hdesc_self : descAt stR f = (descAt st f).Set fid pno)
    (hdesc_ne : ∀ j, j ≠ f → descAt stR j = descAt st j) :
    BufInv stR := by
  obtain ⟨h1, h2, h3, h4, h5⟩ := hInv
  have hkeys := (hashLookup_eq_none_iff st.hashTable fid pno).1 hmiss
  refine ⟨?_, ?_, ?_, ?_, ?_⟩
  · intro e he
    rw [hht] at he
    rcases List.mem_cons.1 he with hhead | htail
    · subst hhead
      simp only [entryOK, hnum, hdesc_self]
      exact ⟨hfn, by simp, by simp, by simp⟩
    · obtain ⟨g1, g2, g3, g4⟩ := h1 e htail
      have hef : e.2 ≠ f := by
        intro hc
        rw [hc] at g2
        rw [g2] at hv
        exact absurd hv (by simp)
      simp only [entryOK, hnum]
      rw [hdesc_ne e.2 hef]
      exact ⟨g1, g2, g3, g4⟩
  · intro i hi hvi
    rw [hnum] at hi
    rw [hht]
    by_cases hif : i = f
    · subst hif
      rw [hdesc_self]
      simp only [BufDesc.Set_file, BufDesc.Set_pageNo]
      exact hashLookup_insert_self _ _ _ _
    · rw [hdesc_ne i hif] at hvi ⊢
      have hkey : ((descAt st i).file, (descAt st i).pageNo) ≠ (fid, pno) := by
        intro hc
        have hli := h2 i hi hvi
        rw [Prod.mk.injEq] at hc
        rw [hc.1, hc.2] at hli
        rw [hmiss] at hli
        exact Option.noConfusion hli
      rw [hashLookup_insert_ne _ _ _ _ _ _ hkey]
      exact h2 i hi hvi
  · rw [hht]
    simp only [hashInsert, List.map_cons]
    refine List.Nodup.cons ?_ h3
    intro hc
    obtain ⟨e, hem, hek⟩ := List.mem_map.1 hc
    exact hkeys e hem hek
  · rw [hht]
    simp only [hashInsert, List.map_cons]
    refine List.Nodup.cons ?_ h4
    intro hc
    obtain ⟨e, hem, hef⟩ := List.mem_map.1 hc
    obtain ⟨g1, g2, g3, g4⟩ := h1 e hem
    rw [hef] at g2
    rw [g2] at hv
    exact absurd hv (by simp)
  · intro i hi hvi
    rw [hnum] at hi
    by_cases hif : i = f
    · subst hif
      rw [hdesc_self] at hvi
      simp at hvi
    · rw [hdesc_ne i hif] at hvi ⊢
      exact h5 i hi hvi

/-! ### Clock distance arithmetic -/

theorem clockDist_lt (n w u : Nat) (hu : u < n) : clockDist n w u < n := by
  unfold clockDist
  split_ifs <;> omega

theorem clockDist_step (n w u : Nat) (hne : w ≠ u) (hw : w < n) (hu : u < n) :
    clockDist n ((w + 1) % n) u + 1 = clockDist n w u := by
  rcases Nat.lt_or_ge (w + 1) n with h | h
  · rw [Nat.mod_eq_of_lt h]
    unfold clockDist
    split_ifs <;> omega
  · have h1 : w + 1 = n := by omega
    rw [h1, Nat.mod_self]
    unfold clockDist
    split_ifs <;> omega

theorem clockDist_full (n u : Nat) (hn : 0 < n) (hu : u < n) :
    clockDist n ((u + 1) % n) u = n - 1 := by
  rcases Nat.lt_or_ge (u + 1) n with h | h
  · rw [Nat.mod_eq_of_lt h]
    unfold clockDist
    split_ifs <;> omega
  · have h1 : u + 1 = n := by omega
    rw [h1, Nat.mod_self]
    unfold clockDist
    split_ifs <;> omega

/-! ### The clock loop: completeness -/

/-- If every frame is pinned (and, per the invariant, valid), the clock
loop throws buffer-exhausted within one lap: `numBufs - count` more
iterations suffice. -/
theorem allocBufLoop_exhaust (fuel : Nat) :
    ∀ count st disk,
      st.bufDescTable.length = st.numBufs →
      (∀ i, i < st.numBufs → (descAt st i).pinCnt > 0) →
      (∀ i, i < st.numBufs → (descAt st i).valid = true) →
      count < st.numBufs → st.numBufs - count ≤ fuel →
      ∃ st2, allocBufLoop fuel count st disk = some (.err .bufferExhausted st2 disk) := by
  induction fuel with
  | zero =>
    intro count st disk hlen hpin hval hcnt hfuel
    omega
  | succ fuel ih =>
    intro count st disk hlen hpin hval hcnt hfuel
    have hn : 0 < st.numBufs := by omega
    have hwlt : (st.clockHand + 1) % st.numBufs < st.numBufs := Nat.mod_lt _ hn
    have hpinw := hpin _ hwlt
    have hvalw := hval _ hwlt
    have hpinw2 : (descAt (advanceClock st) (advanceClock st).clockHand).pinCnt > 0 := by
      simpa using hpinw
    by_cases hcend : count + 1 = st.numBufs
    · refine ⟨advanceClock st, ?_⟩
      rw [allocBufLoop]
      rw [if_pos ⟨hpinw2, by simpa using hcend⟩]
    · have hC1 : ¬((descAt (advanceClock st) (advanceClock st).clockHand).pinCnt > 0 ∧
          count + 1 = (advanceClock st).numBufs) := by
        intro hc
        exact hcend (by simpa using hc.2)
      have hnV : ¬((descAt (advanceClock st) (advanceClock st).clockHand).valid = false) := by
        simp only [descAt_advanceClock, advanceClock_clockHand]
        rw [hvalw]
        simp
      by_cases hrb : (descAt (advanceClock st) (advanceClock st).clockHand).refbit = true
      · have hstep := ih (count + 1)
          (setDesc (advanceClock st) (advanceClock st).clockHand
            { descAt (advanceClock st) (advanceClock st).clockHand with refbit := false })
          disk ?_ ?_ ?_ ?_ ?_
        · obtain ⟨st2, hst2⟩ := hstep
          refine ⟨st2, ?_⟩
          rw [allocBufLoop, if_neg hC1]
          rw [if_neg hnV, if_pos hrb]
          rw [if_pos hpinw2]
          exact hst2
        · simpa using hlen
        · intro i hi
          simp only [setDesc_numBufs, advanceClock_numBufs] at hi
          by_cases hiw : i = (advanceClock st).clockHand
          · subst hiw
            rw [descAt_setDesc_self _ _ _ (by simpa [hlen] using hwlt)]
            exact hpinw2
          · rw [descAt_setDesc_ne _ _ _ _ (fun hc => hiw hc.symm)]
            simpa using hpin i hi
        · intro i hi
          simp only [setDesc_numBufs, advanceClock_numBufs] at hi
          by_cases hiw : i = (advanceClock st).clockHand
          · subst hiw
            rw [descAt_setDesc_self _ _ _ (by simpa [hlen] using hwlt)]
            simpa using hvalw
          · rw [descAt_setDesc_ne _ _ _ _ (fun hc => hiw hc.symm)]
            simpa using hval i hi
        · simpa using (by omega : count + 1 < st.numBufs)
        · simpa using (by omega : st.numBufs - (count + 1) ≤ fuel)
      · have hpinne : (descAt (advanceClock st) (advanceClock st).clockHand).pinCnt ≠ 0 := by
          omega
        have hstep := ih (count + 1) (advanceClock st) disk (by simpa using hlen)
          (by intro i hi; simpa using hpin i (by simpa using hi))
          (by intro i hi; simpa using hval i (by simpa using hi))
          (by simpa using (by omega : count + 1 < st.numBufs))
          (by simpa using (by omega : st.numBufs - (count + 1) ≤ fuel))
        obtain ⟨st2, hst2⟩ := hstep
        refine ⟨st2, ?_⟩
        rw [allocBufLoop, if_neg hC1]
        rw [if_neg hnV, if_neg hrb]
        rw [if_pos hpinne]
        rw [if_pos hpinw2]
        exact hst2

/-- If some frame `u` is unpinned, the clock loop finds a victim: it never
throws and it returns within `dist(u) + numBufs + 1` iterations (part of
a lap to reach `u`, plus one full lap if `u` still has its second
chance). -/
theorem allocBufLoop_success (fuel : Nat) :
    ∀ count st disk u,
      st.bufDescTable.length = st.numBufs → 0 < st.numBufs →
      u < st.numBufs → (descAt st u).pinCnt = 0 →
      count + clockDist st.numBufs ((st.clockHand + 1) % st.numBufs) u + 1 ≤ st.numBufs →
      clockDist st.numBufs ((st.clockHand + 1) % st.numBufs) u +
        (if (descAt st u).refbit = true then st.numBufs else 0) + 1 ≤ fuel →
      ∃ f st2 disk2, allocBufLoop fuel count st disk = some (.ok f st2 disk2) := by
  induction fuel with
  | zero =>
    intro count st disk u hlen hn hu hpin hcnt hfl
    omega
  | succ fuel ih =>
    intro count st disk u hlen hn hu hpin hcnt hfl
    have hwlt : (st.clockHand + 1) % st.numBufs < st.numBufs := Nat.mod_lt _ hn
    by_cases hwu : (st.clockHand + 1) % st.numBufs = u
    · -- the sweep lands on the unpinned frame u
      have heq : (advanceClock st).clockHand = u := by simpa using hwu
      have hdu : descAt (advanceClock st) (advanceClock st).clockHand = descAt st u := by
        rw [descAt_advanceClock, heq]
      have hpin0 : (descAt (advanceClock st) (advanceClock st).clockHand).pinCnt = 0 := by
        rw [hdu]
        exact hpin
      have hC1 : ¬((descAt (advanceClock st) (advanceClock st).clockHand).pinCnt > 0 ∧
          count + 1 = (advanceClock st).numBufs) := by
        intro hc
        omega
      by_cases hval : (descAt (advanceClock st) (advanceClock st).clockHand).valid = false
      · refine ⟨(advanceClock st).clockHand,
          setDesc (advanceClock st) (advanceClock st).clockHand
            (descAt (advanceClock st) (advanceClock st).clockHand).Clear, disk, ?_⟩
        rw [allocBufLoop, if_neg hC1, if_pos hval]
      · by_cases hrb : (descAt (advanceClock st) (advanceClock st).clockHand).refbit = true
        · -- second chance granted to u; one more full lap
          have hrbu : (descAt st u).refbit = true := by rw [← hdu]; exact hrb
          have hih := ih 0
            (setDesc (advanceClock st) (advanceClock st).clockHand
              { descAt (advanceClock st) (advanceClock st).clockHand with refbit := false })
            disk u (by simpa using hlen) (by simpa using hn) (by simpa using hu) ?_ ?_ ?_
          · obtain ⟨f, st2, disk2, hrec⟩ := hih
            refine ⟨f, st2, disk2, ?_⟩
            rw [allocBufLoop, if_neg hC1, if_neg hval, if_pos hrb,
              if_neg (by omega : ¬(descAt (advanceClock st) (advanceClock st).clockHand).pinCnt > 0)]
            exact hrec
          · have : descAt (setDesc (advanceClock st) (advanceClock st).clockHand
                { descAt (advanceClock st) (advanceClock st).clockHand with refbit := false }) u =
                { descAt (advanceClock st) (advanceClock st).clockHand with refbit := false } := by
              rw [← heq]
              exact descAt_setDesc_self _ _ _ (by simpa [hlen] using hwlt)
            rw [this, hdu]
            simpa using hpin
          · have hch : (setDesc (advanceClock st) (advanceClock st).clockHand
                { descAt (advanceClock st) (advanceClock st).clockHand with refbit := false }).clockHand
                = u := by simpa using heq
            rw [hch]
            simp only [setDesc_numBufs, advanceClock_numBufs]
            rw [clockDist_full st.numBufs u hn hu]
            omega
          · have hch : (setDesc (advanceClock st) (advanceClock st).clockHand
                { descAt (advanceClock st) (advanceClock st).clockHand with refbit := false }).clockHand
                = u := by simpa using heq
            have hdru : descAt (setDesc (advanceClock st) (advanceClock st).clockHand
                { descAt (advanceClock st) (advanceClock st).clockHand with refbit := false }) u =
                { descAt (advanceClock st) (advanceClock st).clockHand with refbit := false } := by
              rw [← heq]
              exact descAt_setDesc_self _ _ _ (by simpa [hlen] using hwlt)
            rw [hch]
            simp only [setDesc_numBufs, advanceClock_numBufs, hdru]
            rw [clockDist_full st.numBufs u hn hu]
            rw [hrbu] at hfl
            simp only [if_pos] at hfl
            simp
            omega
        · -- u is ripe: valid, refbit clear, unpinned; it is the victim
          refine ⟨(advanceClock st).clockHand,
            setDesc { advanceClock st with hashTable := hashRemove (advanceClock st).hashTable (descAt (advanceClock st) (advanceClock st).clockHand).file (descAt (advanceClock st) (advanceClock st).clockHand).pageNo }
              (advanceClock st).clockHand (descAt (advanceClock st) (advanceClock st).clockHand).Clear,
            (if (descAt (advanceClock st) (advanceClock st).clockHand).dirty = true then
              fileWritePage disk (descAt (advanceClock st) (advanceClock st).clockHand).file
                (poolAt (advanceClock st) (advanceClock st).clockHand) else disk), ?_⟩
          rw [allocBufLoop, if_neg hC1, if_neg hval, if_neg hrb,
            if_neg (by omega : ¬(descAt (advanceClock st) (advanceClock st).clockHand).pinCnt ≠ 0)]
    · -- still sweeping towards u
      have hstep := clockDist_step st.numBufs ((st.clockHand + 1) % st.numBufs) u hwu hwlt hu
      have hdist1 : 1 ≤ clockDist st.numBufs ((st.clockHand + 1) % st.numBufs) u := by omega
      have hC1 : ¬((descAt (advanceClock st) (advanceClock st).clockHand).pinCnt > 0 ∧
          count + 1 = (advanceClock st).numBufs) := by
        intro hc
        have := hc.2
        simp only [advanceClock_numBufs] at this
        omega
      by_cases hval : (descAt (advanceClock st) (advanceClock st).clockHand).valid = false
      · refine ⟨(advanceClock st).clockHand,
          setDesc (advanceClock st) (advanceClock st).clockHand
            (descAt (advanceClock st) (advanceClock st).clockHand).Clear, disk, ?_⟩
        rw [allocBufLoop, if_neg hC1, if_pos hval]
      · have hdu2 : ∀ dd, descAt (setDesc (advanceClock st) (advanceClock st).clockHand dd) u
            = descAt st u := by
          intro dd
          rw [descAt_setDesc_ne _ _ _ _
            (show (advanceClock st).clockHand ≠ u from fun hc => hwu hc)]
          rfl
        by_cases hrb : (descAt (advanceClock st) (advanceClock st).clockHand).refbit = true
        · have hih := ih
            (if (descAt (advanceClock st) (advanceClock st).clockHand).pinCnt > 0 then count + 1 else 0)
            (setDesc (advanceClock st) (advanceClock st).clockHand
              { descAt (advanceClock st) (advanceClock st).clockHand with refbit := false })
            disk u (by simpa using hlen) (by simpa using hn) (by simpa using hu) ?_ ?_ ?_
          · obtain ⟨f, st2, disk2, hrec⟩ := hih
            refine ⟨f, st2, disk2, ?_⟩
            rw [allocBufLoop, if_neg hC1, if_neg hval, if_pos hrb]
            exact hrec
          · rw [hdu2]
            exact hpin
          · have hch : (setDesc (advanceClock st) (advanceClock st).clockHand
                { descAt (advanceClock st) (advanceClock st).clockHand with refbit := false }).clockHand
                = (st.clockHand + 1) % st.numBufs := by simp
            rw [hch]
            simp only [setDesc_numBufs, advanceClock_numBufs]
            split_ifs <;> omega
          · have hch : (setDesc (advanceClock st) (advanceClock st).clockHand
                { descAt (advanceClock st) (advanceClock st).clockHand with refbit := false }).clockHand
                = (st.clockHand + 1) % st.numBufs := by simp
            rw [hch]
            simp only [setDesc_numBufs, advanceClock_numBufs, hdu2]
            omega
        · by_cases hpc : (descAt (advanceClock st) (advanceClock st).clockHand).pinCnt ≠ 0
          · have hih := ih
              (if (descAt (advanceClock st) (advanceClock st).clockHand).pinCnt > 0 then count + 1 else 0)
              (advanceClock st) disk u (by simpa using hlen) (by simpa using hn)
              (by simpa using hu) ?_ ?_ ?_
            · obtain ⟨f, st2, disk2, hrec⟩ := hih
              refine ⟨f, st2, disk2, ?_⟩
              rw [allocBufLoop, if_neg hC1, if_neg hval, if_neg hrb, if_pos hpc]
              exact hrec
            · simpa using hpin
            · simp only [advanceClock_numBufs, advanceClock_clockHand]
              split_ifs <;> omega
            · simp only [advanceClock_numBufs, advanceClock_clockHand, descAt_advanceClock]
              omega
          · refine ⟨(advanceClock st).clockHand,
            setDesc { advanceClock st with hashTable := hashRemove (advanceClock st).hashTable (descAt (advanceClock st) (advanceClock st).clockHand).file (descAt (advanceClock st) (advanceClock st).clockHand).pageNo }
              (advanceClock st).clockHand (descAt (advanceClock st) (advanceClock st).clockHand).Clear,
            (if (descAt (advanceClock st) (advanceClock st).clockHand).dirty = true then
              fileWritePage disk (descAt (advanceClock st) (advanceClock st).clockHand).file
                (poolAt (advanceClock st) (advanceClock st).clockHand) else disk), ?_⟩
            rw [allocBufLoop, if_neg hC1, if_neg hval, if_neg hrb, if_neg hpc]

/-! ### The flush loop -/

/-- The flush loop preserves the invariant and the structural shape of the
state, whatever it returns. -/
theorem flushLoop_props (r : Nat) :
    ∀ i st disk, st.bufDescTable.length = st.numBufs → i + r ≤ st.numBufs →
      BufInv st →
      BufInv (flushLoop st disk r i).state ∧
      (flushLoop st disk r i).state.numBufs = st.numBufs ∧
      (flushLoop st disk r i).state.bufDescTable.length = st.bufDescTable.length ∧
      (flushLoop st disk r i).state.bufPool = st.bufPool ∧
      (flushLoop st disk r i).state.clockHand = st.clockHand ∧
      (∀ j, (descAt (flushLoop st disk r i).state j).frameNo = (descAt st j).frameNo) := by
  induction r with
  | zero =>
    intro i st disk hlen hir hInv
    exact ⟨hInv, rfl, rfl, rfl, rfl, fun j => rfl⟩
  | succ r ih =>
    intro i st disk hlen hir hInv
    have hi : i < st.numBufs := by omega
    have hilen : i < st.bufDescTable.length := by rw [hlen]; exact hi
    rw [flushLoop]
    by_cases hval : (descAt st i).valid = false
    · rw [if_pos hval]
      exact ⟨hInv, rfl, rfl, rfl, rfl, fun j => rfl⟩
    · rw [if_neg hval]
      by_cases hpin : (descAt st i).pinCnt > 0
      · rw [if_pos hpin]
        exact ⟨hInv, rfl, rfl, rfl, rfl, fun j => rfl⟩
      · rw [if_neg hpin]
        have hvalT : (descAt st i).valid = true := by
          revert hval
          cases (descAt st i).valid <;> simp
        -- facts about the dirty-reset state
        have hnumA : (if (descAt st i).dirty = true then
            setDesc st i { descAt st i with dirty := false } else st).numBufs = st.numBufs := by
          split_ifs <;> rfl
        have hlenA : (if (descAt st i).dirty = true then
            setDesc st i { descAt st i with dirty := false } else st).bufDescTable.length
            = st.bufDescTable.length := by
          split_ifs <;> simp
        have hpoolA : (if (descAt st i).dirty = true then
            setDesc st i { descAt st i with dirty := false } else st).bufPool = st.bufPool := by
          split_ifs <;> rfl
        have hclockA : (if (descAt st i).dirty = true then
            setDesc st i { descAt st i with dirty := false } else st).clockHand = st.clockHand := by
          split_ifs <;> rfl
        have hdescA_ne : ∀ j, j ≠ i → descAt (if (descAt st i).dirty = true then
            setDesc st i { descAt st i with dirty := false } else st) j = descAt st j := by
          intro j hj
          split_ifs
          · exact descAt_setDesc_ne st i j _ (fun hc => hj hc.symm)
          · rfl
        have hdescA_i : descAt (if (descAt st i).dirty = true then
            setDesc st i { descAt st i with dirty := false } else st) i
            = { descAt st i with dirty := false } := by
          split_ifs with hd
          · exact descAt_setDesc_self st i _ hilen
          · have hdf : (descAt st i).dirty = false := by
              revert hd
              cases (descAt st i).dirty <;> simp
            rw [← hdf]
        have hInvA : BufInv (if (descAt st i).dirty = true then
            setDesc st i { descAt st i with dirty := false } else st) := by
          refine BufInv_update_at st _ i hInv hnumA ?_ hdescA_ne ?_ ?_ ?_ ?_
          · split_ifs <;> rfl
          · rw [hdescA_i]
          · rw [hdescA_i]
          · rw [hdescA_i]
          · intro hc
            rw [hc] at hvalT
            exact absurd hvalT (by simp)
        have hInvC : BufInv (evictFrame (if (descAt st i).dirty = true then
            setDesc st i { descAt st i with dirty := false } else st) i) := by
          refine BufInv_evict _ i hInvA (by rw [hlenA, hlen, hnumA]) (by rw [hnumA]; exact hi) ?_
          rw [hdescA_i]
          simpa using hvalT
        have hrec := ih (i + 1)
          (evictFrame (if (descAt st i).dirty = true then
            setDesc st i { descAt st i with dirty := false } else st) i)
          (if (descAt st i).dirty = true then
            fileWritePage disk (descAt st i).file (poolAt st (descAt st i).frameNo) else disk)
          (by simp only [evictFrame_length, evictFrame_numBufs]; rw [hlenA, hlen, hnumA])
          (by simp only [evictFrame_numBufs]; rw [hnumA]; omega) hInvC
        obtain ⟨g1, g2, g3, g4, g5, g6⟩ := hrec
        refine ⟨g1, ?_, ?_, ?_, ?_, ?_⟩
        · rw [g2]
          simp only [evictFrame_numBufs]
          exact hnumA
        · rw [g3]
          simp only [evictFrame_length]
          exact hlenA
        · rw [g4]
          simp only [evictFrame_bufPool]
          exact hpoolA
        · rw [g5]
          simp only [evictFrame_clockHand]
          exact hclockA
        · intro j
          rw [g6 j]
          by_cases hji : j = i
          · subst hji
            rw [descAt_evictFrame_self _ _ (by rw [hlenA]; exact hilen)]
            rw [BufDesc.Clear_frameNo, hdescA_i]
          · rw [descAt_evictFrame_ne _ _ _ hji, hdescA_ne j hji]

/-- The flush-scan disk fold reads only descriptors at indices from the
start of its range and the (never changing) pool, so it is unchanged when
the state is replaced by one agreeing there. -/
theorem flushWrites_congr (st stX : BufState) (hpool : stX.bufPool = st.bufPool) :
    ∀ r i disk, (∀ j, i ≤ j → descAt stX j = descAt st j) →
      flushWrites stX disk r i = flushWrites st disk r i := by
  intro r
  induction r with
  | zero =>
    intro i disk hdesc
    rfl
  | succ r ih =>
    intro i disk hdesc
    rw [flushWrites, flushWrites, hdesc i (le_refl i)]
    have hpoolAt : ∀ x, poolAt stX x = poolAt st x := by
      intro x
      simp [poolAt, hpool]
    rw [hpoolAt]
    exact ih (i + 1) _ (fun j hj => hdesc j (by omega))

/-- If the flush loop fails, it fails at the first offending frame `k`:
frames before `k` (from the starting index on) were valid and unpinned and
have been cleared, their index entries removed (and only those entries
touched), each dirty one written back through the file collaborator in
scan order; frame `k` and everything after it — and everything before the
starting index — are exactly as they were. -/
theorem flushLoop_err (r : Nat) :
    ∀ i st disk e st2 disk2,
      flushLoop st disk r i = .err e st2 disk2 →
      st.bufDescTable.length = st.numBufs → i + r ≤ st.numBufs →
      ∃ k, i ≤ k ∧ k < st.numBufs ∧
        ((e = .badBuffer ∧ (descAt st k).valid = false) ∨
         (e = .pagePinned ∧ (descAt st k).valid = true ∧ (descAt st k).pinCnt > 0)) ∧
        (∀ j, k ≤ j → descAt st2 j = descAt st j) ∧
        (∀ j, j < i → descAt st2 j = descAt st j) ∧
        (∀ j, i ≤ j → j < k →
          (descAt st j).valid = true ∧ (descAt st j).pinCnt = 0 ∧
          (descAt st2 j).valid = false ∧ (descAt st2 j).pinCnt = 0 ∧
          (descAt st2 j).dirty = false) ∧
        (∀ a b, hashLookup st.hashTable a b = none →
          hashLookup st2.hashTable a b = none) ∧
        (∀ j, i ≤ j → j < k →
          hashLookup st2.hashTable (descAt st j).file (descAt st j).pageNo = none) ∧
        (∀ a b, (∀ j, i ≤ j → j < k →
            ¬(a = (descAt st j).file ∧ b = (descAt st j).pageNo)) →
          hashLookup st2.hashTable a b = hashLookup st.hashTable a b) ∧
        disk2 = flushWrites st disk (k - i) i ∧
        st2.bufPool = st.bufPool ∧ st2.clockHand = st.clockHand ∧
        st2.numBufs = st.numBufs := by
  induction r with
  | zero =>
    intro i st disk e st2 disk2 h hlen hir
    exact absurd h (by simp [flushLoop])
  | succ r ih =>
    intro i st disk e st2 disk2 h hlen hir
    have hi : i < st.numBufs := by omega
    have hilen : i < st.bufDescTable.length := by rw [hlen]; exact hi
    rw [flushLoop] at h
    by_cases hval : (descAt st i).valid = false
    · rw [if_pos hval] at h
      simp only [Res.err.injEq] at h
      obtain ⟨he, hst, hdk⟩ := h
      refine ⟨i, le_refl i, hi, Or.inl ⟨he.symm, hval⟩, ?_, ?_, ?_, ?_, ?_, ?_, ?_, ?_, ?_, ?_⟩
      · intro j _
        rw [← hst]
      · intro j _
        rw [← hst]
      · intro j hj1 hj2
        omega
      · intro a b hnone
        rw [← hst]
        exact hnone
      · intro j hj1 hj2
        omega
      · intro a b _
        rw [← hst]
      · rw [← hdk, Nat.sub_self]
        rfl
      · rw [← hst]
      · rw [← hst]
      · rw [← hst]
    · rw [if_neg hval] at h
      by_cases hpin : (descAt st i).pinCnt > 0
      · rw [if_pos hpin] at h
        simp only [Res.err.injEq] at h
        obtain ⟨he, hst, hdk⟩ := h
        have hvalT : (descAt st i).valid = true := by
          revert hval
          cases (descAt st i).valid <;> simp
        refine ⟨i, le_refl i, hi, Or.inr ⟨he.symm, hvalT, hpin⟩, ?_, ?_, ?_, ?_, ?_, ?_, ?_,
          ?_, ?_, ?_⟩
        · intro j _
          rw [← hst]
        · intro j _
          rw [← hst]
        · intro j hj1 hj2
          omega
        · intro a b hnone
          rw [← hst]
          exact hnone
        · intro j hj1 hj2
          omega
        · intro a b _
          rw [← hst]
        · rw [← hdk, Nat.sub_self]
          rfl
        · rw [← hst]
        · rw [← hst]
        · rw [← hst]
      · rw [if_neg hpin] at h
        have hvalT : (descAt st i).valid = true := by
          revert hval
          cases (descAt st i).valid <;> simp
        have hpin0 : (descAt st i).pinCnt = 0 := by omega
        have hlenA : (if (descAt st i).dirty = true then
            setDesc st i { descAt st i with dirty := false } else st).bufDescTable.length
            = st.bufDescTable.length := by
          split_ifs <;> simp
        have hnumA : (if (descAt st i).dirty = true then
            setDesc st i { descAt st i with dirty := false } else st).numBufs = st.numBufs := by
          split_ifs <;> rfl
        have hhtA : (if (descAt st i).dirty = true then
            setDesc st i { descAt st i with dirty := false } else st).hashTable
            = st.hashTable := by
          split_ifs <;> rfl
        have hpoolA : (if (descAt st i).dirty = true then
            setDesc st i { descAt st i with dirty := false } else st).bufPool
            = st.bufPool := by
          split_ifs <;> rfl
        have hdescA_ne : ∀ j, j ≠ i → descAt (if (descAt st i).dirty = true then
            setDesc st i { descAt st i with dirty := false } else st) j = descAt st j := by
          intro j hj
          split_ifs
          · exact descAt_setDesc_ne st i j _ (fun hc => hj hc.symm)
          · rfl
        have hdescA_i : descAt (if (descAt st i).dirty = true then
            setDesc st i { descAt st i with dirty := false } else st) i
            = { descAt st i with dirty := false } := by
          split_ifs with hd
          · exact descAt_setDesc_self st i _ hilen
          · have hdf : (descAt st i).dirty = false := by
              revert hd
              cases (descAt st i).dirty <;> simp
            rw [← hdf]
        have hhtC : (evictFrame (if (descAt st i).dirty = true then
            setDesc st i { descAt st i with dirty := false } else st) i).hashTable
            = hashRemove st.hashTable (descAt st i).file (descAt st i).pageNo := by
          rw [evictFrame_hashTable, hdescA_i, hhtA]
        have hdescC_i : descAt (evictFrame (if (descAt st i).dirty = true then
            setDesc st i { descAt st i with dirty := false } else st) i) i
            = (descAt st i).Clear := by
          rw [descAt_evictFrame_self _ _ (by rw [hlenA]; exact hilen), hdescA_i]
          simp [BufDesc.Clear]
        have hdescC_ne : ∀ j, j ≠ i → descAt (evictFrame (if (descAt st i).dirty = true then
            setDesc st i { descAt st i with dirty := false } else st) i) j = descAt st j := by
          intro j hj
          rw [descAt_evictFrame_ne _ _ _ hj, hdescA_ne j hj]
        have hpoolC : (evictFrame (if (descAt st i).dirty = true then
            setDesc st i { descAt st i with dirty := false } else st) i).bufPool
            = st.bufPool := by
          rw [evictFrame_bufPool, hpoolA]
        obtain ⟨k, hk1, hk2, hkind, hge, hlt, hmid, hnonepres, hremoved, hpres, hdisk,
          hpool, hclock, hnum⟩ :=
          ih (i + 1) _ _ _ _ _ h
            (by simp only [evictFrame_length, evictFrame_numBufs]; rw [hlenA, hlen, hnumA])
            (by simp only [evictFrame_numBufs]; rw [hnumA]; omega)
        simp only [evictFrame_numBufs, hnumA] at hk2 hnum
        refine ⟨k, by omega, hk2, ?_, ?_, ?_, ?_, ?_, ?_, ?_, ?_, ?_, ?_, ?_⟩
        · rcases hkind with ⟨he, hkv⟩ | ⟨he, hkv, hkp⟩
          · rw [hdescC_ne k (by omega)] at hkv
            exact Or.inl ⟨he, hkv⟩
          · rw [hdescC_ne k (by omega)] at hkv hkp
            exact Or.inr ⟨he, hkv, hkp⟩
        · intro j hj
          rw [hge j hj, hdescC_ne j (by omega)]
        · intro j hj
          rw [hlt j (by omega), hdescC_ne j (by omega)]
        · intro j hj1 hj2
          by_cases hji : j = i
          · subst hji
            refine ⟨hvalT, hpin0, ?_⟩
            rw [hlt j (by omega), hdescC_i]
            simp
          · have hj1A : i + 1 ≤ j := by omega
            obtain ⟨m1, m2, m3, m4, m5⟩ := hmid j hj1A hj2
            rw [hdescC_ne j hji] at m1 m2
            exact ⟨m1, m2, m3, m4, m5⟩
        · intro a b hnone
          refine hnonepres a b ?_
          rw [hhtC]
          exact hashLookup_remove_none _ _ _ _ _ hnone
        · intro j hj1 hj2
          by_cases hji : j = i
          · subst hji
            refine hnonepres (descAt st j).file (descAt st j).pageNo ?_
            rw [hhtC]
            exact hashLookup_remove_self _ _ _
          · have hj1A : i + 1 ≤ j := by omega
            have := hremoved j hj1A hj2
            rw [hdescC_ne j hji] at this
            exact this
        · intro a b havoid
          have h1 : hashLookup st2.hashTable a b =
              hashLookup (evictFrame (if (descAt st i).dirty = true then
                setDesc st i { descAt st i with dirty := false } else st) i).hashTable a b := by
            refine hpres a b ?_
            intro j hj1 hj2
            rw [hdescC_ne j (by omega)]
            exact havoid j (by omega) hj2
          rw [h1, hhtC, hashLookup_remove_ne]
          intro hc
          rw [Prod.mk.injEq] at hc
          exact havoid i (le_refl i) (by omega) ⟨hc.1, hc.2⟩
        · have hki : k - i = (k - (i + 1)) + 1 := by omega
          rw [hki, flushWrites]
          rw [hdisk]
          exact flushWrites_congr st _ hpoolC _ _ _ (fun j hj => hdescC_ne j (by omega))
        · rw [hpool]
          exact hpoolC
        · rw [hclock]
          simp only [evictFrame_clockHand]
          split_ifs <;> rfl
        · exact hnum

/-! ### Claim theorems -/

/-- Claim C2: whenever allocBuf returns a frame, that frame — in the swept
state `stm`, which differs from the entry state only by cleared reference
bits — was either invalid, or valid with refbit clear and pinCnt = 0; its
pin count in the entry state is 0 (a pinned frame is never the victim);
and a valid victim is written back through the file collaborator when
dirty, has its old index entry removed, and its descriptor reset before
the frame is returned. -/
theorem c2_victim_selection (st : BufState) (disk : Disk) (f : Nat)
    (st2 : BufState) (disk2 : Disk) (hWF : WF st) (hInv : BufInv st)
    (h : allocBuf st disk = some (.ok f st2 disk2)) :
    (descAt st f).pinCnt = 0 ∧
    ∃ stm, RefOnly st stm ∧ f = stm.clockHand ∧
      (((descAt stm f).valid = false ∧ st2 = clearFrame stm f ∧ disk2 = disk) ∨
       ((descAt stm f).valid = true ∧ (descAt stm f).refbit = false ∧
        (descAt stm f).pinCnt = 0 ∧ st2 = evictFrame stm f ∧
        disk2 = (if (descAt stm f).dirty = true then
          fileWritePage disk (descAt stm f).file (poolAt stm f) else disk))) := by
  obtain ⟨hn, hlen, _, _, _⟩ := hWF
  obtain ⟨stm, hro, hf, hfn, hdisc⟩ := allocBufLoop_ok _ _ _ _ _ _ _ h hlen hn
  obtain ⟨f1, f2, f3, f4, f5, f6⟩ := RefOnly.fields st stm hro f
  refine ⟨?_, stm, hro, hf, hdisc⟩
  rcases hdisc with ⟨hv, _, _⟩ | ⟨_, _, hpc, _, _⟩
  · rw [f1] at hv
    exact (hInv.2.2.2.2 f hfn hv).1
  · rw [← f3]
    exact hpc

/-- Claim C2 witness: a fresh one-frame manager serves frame 0, which is
invalid and unpinned. -/
theorem c2_victim_selection_witness :
    (WF (mkBufMgr 1) ∧ BufInv (mkBufMgr 1) ∧
      allocBuf (mkBufMgr 1) disk0 = some (.ok 0 (mkBufMgr 1) disk0)) ∧
    ((descAt (mkBufMgr 1) 0).pinCnt = 0 ∧
    ∃ stm, RefOnly (mkBufMgr 1) stm ∧ 0 = stm.clockHand ∧
      (((descAt stm 0).valid = false ∧ mkBufMgr 1 = clearFrame stm 0 ∧ disk0 = disk0) ∨
       ((descAt stm 0).valid = true ∧ (descAt stm 0).refbit = false ∧
        (descAt stm 0).pinCnt = 0 ∧ mkBufMgr 1 = evictFrame stm 0 ∧
        disk0 = (if (descAt stm 0).dirty = true then
          fileWritePage disk0 (descAt stm 0).file (poolAt stm 0) else disk0)))) :=
  ⟨⟨by decide, by decide, by decide⟩,
    c2_victim_selection (mkBufMgr 1) disk0 0 (mkBufMgr 1) disk0
      (by decide) (by decide) (by decide)⟩

/-- Claim C4 (amended): a failing allocBuf throws buffer-exhausted and
leaves the disk, the cache index, the pool and every descriptor's valid,
dirty, pinCnt, file and pageNo unchanged, but it may have cleared
reference bits of frames swept during the lap (and it moves the clock
hand); it does not leave every descriptor field — the refbit included —
exactly as it was. -/
theorem c4_failed_allocBuf_state (st : BufState) (disk : Disk) (e : BufError)
    (st2 : BufState) (disk2 : Disk)
    (hlen : st.bufDescTable.length = st.numBufs)
    (h : allocBuf st disk = some (.err e st2 disk2)) :
    e = .bufferExhausted ∧ disk2 = disk ∧ st2.hashTable = st.hashTable ∧
    st2.bufPool = st.bufPool ∧
    (∀ i, (descAt st2 i).valid = (descAt st i).valid ∧
      (descAt st2 i).dirty = (descAt st i).dirty ∧
      (descAt st2 i).pinCnt = (descAt st i).pinCnt ∧
      (descAt st2 i).file = (descAt st i).file ∧
      (descAt st2 i).pageNo = (descAt st i).pageNo ∧
      ((descAt st2 i).refbit = (descAt st i).refbit ∨ (descAt st2 i).refbit = false)) := by
  obtain ⟨he, hdk, hro, hck⟩ := allocBufLoop_err _ _ _ _ _ _ _ h hlen
  refine ⟨he, hdk, hro.2.1, hro.2.2.1, fun i => ?_⟩
  obtain ⟨f1, f2, f3, f4, f5, f6⟩ := RefOnly.fields st st2 hro i
  refine ⟨f1, f2, f3, f4, f5, ?_⟩
  rcases hro.2.2.2.2 i with hd | hd
  · exact Or.inl (by rw [hd])
  · exact Or.inr (by rw [hd])

/-- Claim C4 counterexample: on a two-frame pool with both frames pinned
and frame 0 recently referenced, the failing allocBuf clears frame 0's
reference bit before throwing, so the failure does not leave every
descriptor field unchanged. -/
theorem c4_counterexample :
    allocBuf stPinned disk0 = some (.err .bufferExhausted stPinnedAfter disk0) ∧
    (descAt stPinned 0).refbit = true ∧
    (descAt stPinnedAfter 0).refbit = false := by decide

/-- Claim C4 witness for the amended theorem, at the same concrete pool. -/
theorem c4_failed_allocBuf_state_witness :
    (stPinned.bufDescTable.length = stPinned.numBufs ∧
      allocBuf stPinned disk0 = some (.err .bufferExhausted stPinnedAfter disk0)) ∧
    (BufError.bufferExhausted = .bufferExhausted ∧ disk0 = disk0 ∧
      stPinnedAfter.hashTable = stPinned.hashTable ∧
      stPinnedAfter.bufPool = stPinned.bufPool ∧
      (∀ i, (descAt stPinnedAfter i).valid = (descAt stPinned i).valid ∧
        (descAt stPinnedAfter i).dirty = (descAt stPinned i).dirty ∧
        (descAt stPinnedAfter i).pinCnt = (descAt stPinned i).pinCnt ∧
        (descAt stPinnedAfter i).file = (descAt stPinned i).file ∧
        (descAt stPinnedAfter i).pageNo = (descAt stPinned i).pageNo ∧
        ((descAt stPinnedAfter i).refbit = (descAt stPinned i).refbit ∨
          (descAt stPinnedAfter i).refbit = false))) :=
  ⟨⟨by decide, by decide⟩,
    c4_failed_allocBuf_state stPinned disk0 .bufferExhausted stPinnedAfter disk0
      (by decide) (by decide)⟩

/-- Claim C5: a read of a cached page sets the frame's refbit, increments
its pin count by one, returns that frame with the disk (and hence the
collaborator call log) untouched, and changes no other frame, no index
entry and no pool slot. -/
theorem c5_read_hit (st : BufState) (disk : Disk) (fid pno f : Nat)
    (hWF : WF st) (hInv : BufInv st)
    (hlk : hashLookup st.hashTable fid pno = some f) :
    ∃ st2, readPage st disk fid pno = some (.ok f st2 disk) ∧
      (descAt st2 f).refbit = true ∧
      (descAt st2 f).pinCnt = (descAt st f).pinCnt + 1 ∧
      (descAt st2 f).valid = (descAt st f).valid ∧
      (descAt st2 f).dirty = (descAt st f).dirty ∧
      (descAt st2 f).file = (descAt st f).file ∧
      (descAt st2 f).pageNo = (descAt st f).pageNo ∧
      (∀ j, j ≠ f → descAt st2 j = descAt st j) ∧
      st2.hashTable = st.hashTable ∧ st2.bufPool = st.bufPool ∧
      st2.clockHand = st.clockHand := by
  have hmem := hashLookup_mem _ _ _ _ hlk
  obtain ⟨g1, g2, g3, g4⟩ := hInv.1 _ hmem
  have hflen : f < st.bufDescTable.length := by rw [hWF.2.1]; exact g1
  refine ⟨setDesc st f { descAt st f with refbit := true, pinCnt := (descAt st f).pinCnt + 1 }, ?_, ?_, ?_, ?_, ?_, ?_, ?_, ?_, rfl, rfl, rfl⟩
  · simp [readPage, hlk]
  · rw [descAt_setDesc_self st f _ hflen]
  · rw [descAt_setDesc_self st f _ hflen]
  · rw [descAt_setDesc_self st f _ hflen]
  · rw [descAt_setDesc_self st f _ hflen]
  · rw [descAt_setDesc_self st f _ hflen]
  · rw [descAt_setDesc_self st f _ hflen]
  · intro j hj
    exact descAt_setDesc_ne st f j _ (fun hc => hj hc.symm)

/-- Claim C5 witness: reading cached page (1,10) of the two-frame pool. -/
theorem c5_read_hit_witness :
    (WF stFlush ∧ BufInv stFlush ∧ hashLookup stFlush.hashTable 1 10 = some 0) ∧
    (∃ st2, readPage stFlush disk0 1 10 = some (.ok 0 st2 disk0) ∧
      (descAt st2 0).refbit = true ∧
      (descAt st2 0).pinCnt = (descAt stFlush 0).pinCnt + 1 ∧
      (descAt st2 0).valid = (descAt stFlush 0).valid ∧
      (descAt st2 0).dirty = (descAt stFlush 0).dirty ∧
      (descAt st2 0).file = (descAt stFlush 0).file ∧
      (descAt st2 0).pageNo = (descAt stFlush 0).pageNo ∧
      (∀ j, j ≠ 0 → descAt st2 j = descAt stFlush j) ∧
      st2.hashTable = stFlush.hashTable ∧ st2.bufPool = stFlush.bufPool ∧
      st2.clockHand = stFlush.clockHand) :=
  ⟨⟨by decide, by decide, by decide⟩,
    c5_read_hit stFlush disk0 1 10 0 (by decide) (by decide) (by decide)⟩

/-- Claim C6: unPinPage on an uncached page is a silent no-op; on a cached
page with pin count 0 it fails with page-not-pinned changing nothing (in
particular the dirty argument is not applied); on a cached pinned page it
decrements the pin count by exactly one, ors the dirty argument into the
sticky dirty bit (never clearing it), and leaves the frame valid and
indexed, all other state untouched. -/
theorem c6_unpin (st : BufState) (disk : Disk) (fid pno : Nat) (dirty : Bool)
    (hWF : WF st) (hInv : BufInv st) :
    (hashLookup st.hashTable fid pno = none →
      unPinPage st disk fid pno dirty = .ok () st disk) ∧
    (∀ f, hashLookup st.hashTable fid pno = some f → (descAt st f).pinCnt = 0 →
      unPinPage st disk fid pno dirty = .err .pageNotPinned st disk) ∧
    (∀ f, hashLookup st.hashTable fid pno = some f → 0 < (descAt st f).pinCnt →
      ∃ st2, unPinPage st disk fid pno dirty = .ok () st2 disk ∧
        (descAt st2 f).pinCnt = (descAt st f).pinCnt - 1 ∧
        (descAt st2 f).dirty = ((descAt st f).dirty || dirty) ∧
        (descAt st2 f).valid = true ∧
        hashLookup st2.hashTable fid pno = some f ∧
        st2.hashTable = st.hashTable ∧ st2.bufPool = st.bufPool ∧
        st2.clockHand = st.clockHand ∧
        (descAt st2 f).refbit = (descAt st f).refbit ∧
        (descAt st2 f).file = (descAt st f).file ∧
        (descAt st2 f).pageNo = (descAt st f).pageNo ∧
        (∀ j, j ≠ f → descAt st2 j = descAt st j)) := by
  refine ⟨?_, ?_, ?_⟩
  · intro hlk
    simp [unPinPage, hlk]
  · intro f hlk hp0
    simp [unPinPage, hlk, hp0]
  · intro f hlk hpin
    have hmem := hashLookup_mem _ _ _ _ hlk
    obtain ⟨g1, g2, g3, g4⟩ := hInv.1 _ hmem
    have hflen : f < st.bufDescTable.length := by rw [hWF.2.1]; exact g1
    have hrun : unPinPage st disk fid pno dirty = .ok ()
        (setDesc st f (if dirty = true then
          { descAt st f with pinCnt := (descAt st f).pinCnt - 1, dirty := true }
         else { descAt st f with pinCnt := (descAt st f).pinCnt - 1 })) disk := by
      simp only [unPinPage, hlk]
      rw [if_neg (by omega : ¬(descAt st f).pinCnt = 0), if_pos hpin]
    refine ⟨_, hrun, ?_, ?_, ?_, ?_, rfl, rfl, rfl, ?_, ?_, ?_, ?_⟩
    · rw [descAt_setDesc_self st f _ hflen]
      split_ifs <;> rfl
    · rw [descAt_setDesc_self st f _ hflen]
      by_cases hd : dirty = true
      · rw [if_pos hd, hd]
        simp
      · have hdf : dirty = false := by
          revert hd
          cases dirty <;> simp
        rw [if_neg hd, hdf]
        simp
    · rw [descAt_setDesc_self st f _ hflen]
      have : (descAt st f).valid = true := g2
      split_ifs <;> simpa using this
    · exact hlk
    · rw [descAt_setDesc_self st f _ hflen]
      split_ifs <;> rfl
    · rw [descAt_setDesc_self st f _ hflen]
      split_ifs <;> rfl
    · rw [descAt_setDesc_self st f _ hflen]
      split_ifs <;> rfl
    · intro j hj
      exact descAt_setDesc_ne st f j _ (fun hc => hj hc.symm)

/-- Claim C6 witness: the two-frame pool, unpinning the pinned frame. -/
theorem c6_unpin_witness :
    (WF stFlush ∧ BufInv stFlush) ∧
    ((hashLookup stFlush.hashTable 1 11 = none →
      unPinPage stFlush disk0 1 11 true = .ok () stFlush disk0) ∧
    (∀ f, hashLookup stFlush.hashTable 1 11 = some f → (descAt stFlush f).pinCnt = 0 →
      unPinPage stFlush disk0 1 11 true = .err .pageNotPinned stFlush disk0) ∧
    (∀ f, hashLookup stFlush.hashTable 1 11 = some f → 0 < (descAt stFlush f).pinCnt →
      ∃ st2, unPinPage stFlush disk0 1 11 true = .ok () st2 disk0 ∧
        (descAt st2 f).pinCnt = (descAt stFlush f).pinCnt - 1 ∧
        (descAt st2 f).dirty = ((descAt stFlush f).dirty || true) ∧
        (descAt st2 f).valid = true ∧
        hashLookup st2.hashTable 1 11 = some f ∧
        st2.hashTable = stFlush.hashTable ∧ st2.bufPool = stFlush.bufPool ∧
        st2.clockHand = stFlush.clockHand ∧
        (descAt st2 f).refbit = (descAt stFlush f).refbit ∧
        (descAt st2 f).file = (descAt stFlush f).file ∧
        (descAt st2 f).pageNo = (descAt stFlush f).pageNo ∧
        (∀ j, j ≠ f → descAt st2 j = descAt stFlush j))) :=
  ⟨⟨by decide, by decide⟩, c6_unpin stFlush disk0 1 11 true (by decide) (by decide)⟩

/-- Claim C7 (amended): when flushFile fails it does so at the first
offending frame `k` — bad-buffer when frame `k` is invalid, page-pinned
when it is pinned — leaving frame `k` and all frames after it (and the
pool and clock hand) exactly as they were; but the frames before `k`,
which were valid and unpinned, have already been processed by the time
the error is raised: each dirty one has been written back through the
file collaborator in scan order (the disk comes back as exactly that
fold of write-backs), their descriptors have been cleared, and their
index entries removed — with every other index entry preserved — so the
call does not leave all manager state as it was. -/
theorem c7_flush_failure (st : BufState) (disk : Disk) (fid : Nat) (e : BufError)
    (st2 : BufState) (disk2 : Disk) (hWF : WF st)
    (h : flushFile st disk fid = .err e st2 disk2) :
    ∃ k, k < st.numBufs ∧
      ((e = .badBuffer ∧ (descAt st k).valid = false) ∨
       (e = .pagePinned ∧ (descAt st k).valid = true ∧ (descAt st k).pinCnt > 0)) ∧
      (∀ j, k ≤ j → descAt st2 j = descAt st j) ∧
      (∀ j, j < k → (descAt st j).valid = true ∧ (descAt st j).pinCnt = 0 ∧
        (descAt st2 j).valid = false ∧ (descAt st2 j).pinCnt = 0 ∧
        (descAt st2 j).dirty = false) ∧
      (∀ j, j < k →
        hashLookup st2.hashTable (descAt st j).file (descAt st j).pageNo = none) ∧
      (∀ a b, (∀ j, j < k → ¬(a = (descAt st j).file ∧ b = (descAt st j).pageNo)) →
        hashLookup st2.hashTable a b = hashLookup st.hashTable a b) ∧
      disk2 = flushWrites st disk k 0 ∧
      st2.bufPool = st.bufPool ∧ st2.clockHand = st.clockHand ∧
      st2.numBufs = st.numBufs := by
  obtain ⟨k, hk1, hk2, hkind, hge, hlt, hmid, hnonepres, hremoved, hpres, hdisk,
    hpool, hclock, hnum⟩ :=
    flushLoop_err st.numBufs 0 st disk e st2 disk2 h hWF.2.1 (by omega)
  refine ⟨k, hk2, hkind, hge, fun j hj => hmid j (Nat.zero_le j) hj,
    fun j hj => hremoved j (Nat.zero_le j) hj,
    fun a b havoid => hpres a b (fun j _ hj => havoid j hj), ?_,
    hpool, hclock, hnum⟩
  rw [hdisk, Nat.sub_zero]

/-- Claim C7 counterexample: with frame 0 valid and unpinned and frame 1
pinned, flushFile raises page-pinned only after it has already cleared
frame 0 and removed its index entry, so the failing call does not leave
every descriptor and index entry as it was. -/
theorem c7_counterexample :
    flushFile stFlush disk0 1 = .err .pagePinned stFlushAfter disk0 ∧
    (descAt stFlush 0).valid = true ∧ (descAt stFlushAfter 0).valid = false ∧
    hashLookup stFlush.hashTable 1 10 = some 0 ∧
    hashLookup stFlushAfter.hashTable 1 10 = none := by decide

/-- Claim C7 witness for the amended theorem: the two-frame pool whose
unpinned frame 0 is dirty, so the failing flush writes it back, clears it
and unindexes it before the pinned frame 1 aborts the scan. -/
theorem c7_flush_failure_witness :
    (WF stFlushDirty ∧
      flushFile stFlushDirty disk0 1 = .err .pagePinned stFlushDirtyAfter diskFlushDirtyAfter) ∧
    (∃ k, k < stFlushDirty.numBufs ∧
      ((BufError.pagePinned = .badBuffer ∧ (descAt stFlushDirty k).valid = false) ∨
       (BufError.pagePinned = .pagePinned ∧ (descAt stFlushDirty k).valid = true ∧
        (descAt stFlushDirty k).pinCnt > 0)) ∧
      (∀ j, k ≤ j → descAt stFlushDirtyAfter j = descAt stFlushDirty j) ∧
      (∀ j, j < k → (descAt stFlushDirty j).valid = true ∧
        (descAt stFlushDirty j).pinCnt = 0 ∧
        (descAt stFlushDirtyAfter j).valid = false ∧
        (descAt stFlushDirtyAfter j).pinCnt = 0 ∧
        (descAt stFlushDirtyAfter j).dirty = false) ∧
      (∀ j, j < k → hashLookup stFlushDirtyAfter.hashTable
        (descAt stFlushDirty j).file (descAt stFlushDirty j).pageNo = none) ∧
      (∀ a b, (∀ j, j < k →
          ¬(a = (descAt stFlushDirty j).file ∧ b = (descAt stFlushDirty j).pageNo)) →
        hashLookup stFlushDirtyAfter.hashTable a b =
          hashLookup stFlushDirty.hashTable a b) ∧
      diskFlushDirtyAfter = flushWrites stFlushDirty disk0 k 0 ∧
      stFlushDirtyAfter.bufPool = stFlushDirty.bufPool ∧
      stFlushDirtyAfter.clockHand = stFlushDirty.clockHand ∧
      stFlushDirtyAfter.numBufs = stFlushDirty.numBufs) :=
  ⟨⟨by decide, by decide⟩,
    c7_flush_failure stFlushDirty disk0 1 .pagePinned stFlushDirtyAfter diskFlushDirtyAfter
      (by decide) (by decide)⟩

/-- Claim C8 (code behavior at the failing input): when (file, pageNo) is
not in the cache index, disposePage is a complete no-op — the
HashNotFoundException from the lookup jumps over the `deletePage` call
sitting below it in the same try block, so the page is never deleted via
the file collaborator, the disk (including the collaborator call log)
being returned unchanged. -/
theorem c8_uncached_dispose_skips_delete (st : BufState) (disk : Disk)
    (fid pno : Nat) (h : hashLookup st.hashTable fid pno = none) :
    disposePage st disk fid pno = .ok () st disk := by
  simp [disposePage, h]

/-- Claim C8 witness: disposing page 5 of file 1 on a fresh manager leaves
the manager and the disk — its call log included — untouched. -/
theorem c8_uncached_dispose_skips_delete_witness :
    hashLookup (mkBufMgr 1).hashTable 1 5 = none ∧
    disposePage (mkBufMgr 1) disk0 1 5 = .ok () (mkBufMgr 1) disk0 :=
  ⟨by decide, c8_uncached_dispose_skips_delete (mkBufMgr 1) disk0 1 5 (by decide)⟩

/-- Claim C3: if every frame is pinned, the clock allocator fails with
buffer-exhausted within a single lap (fuel numBufs already suffices, so
there is no internal retry), and so do a readPage miss and allocPage;
conversely, if any frame is unpinned, allocBuf returns a frame rather
than failing. -/
theorem c3_exhaustion_iff_all_pinned (st : BufState) (disk : Disk)
    (fid pno fid2 : Nat) (hWF : WF st) (hInv : BufInv st) :
    ((∀ i, i < st.numBufs → (descAt st i).pinCnt > 0) →
      (∃ st2, allocBufLoop st.numBufs 0 st disk = some (.err .bufferExhausted st2 disk)) ∧
      (∃ st2, allocBuf st disk = some (.err .bufferExhausted st2 disk)) ∧
      (hashLookup st.hashTable fid pno = none →
        ∃ st2, readPage st disk fid pno = some (.err .bufferExhausted st2 disk)) ∧
      (∃ st2, allocPage st disk fid2 =
        some (.err .bufferExhausted st2 (fileAllocatePage disk fid2).2))) ∧
    ((∃ u, u < st.numBufs ∧ (descAt st u).pinCnt = 0) →
      ∃ f st2 disk2, allocBuf st disk = some (.ok f st2 disk2)) := by
  obtain ⟨hn, hlen, _, _, _⟩ := hWF
  constructor
  · intro hall
    have hvalid : ∀ i, i < st.numBufs → (descAt st i).valid = true := by
      intro i hi
      cases hb : (descAt st i).valid
      · have := (hInv.2.2.2.2 i hi hb).1
        have := hall i hi
        omega
      · rfl
    have hex1 := allocBufLoop_exhaust st.numBufs 0 st disk hlen hall hvalid hn (by omega)
    have hex2 := allocBufLoop_exhaust (2 * st.numBufs + 1) 0 st disk hlen hall hvalid hn
      (by omega)
    refine ⟨hex1, hex2, ?_, ?_⟩
    · intro hmiss
      obtain ⟨st2, hst2⟩ := hex2
      refine ⟨st2, ?_⟩
      simp only [readPage, hmiss]
      rw [show allocBuf st disk = some (.err .bufferExhausted st2 disk) from hst2]
    · obtain ⟨st2, hst2⟩ := allocBufLoop_exhaust (2 * st.numBufs + 1) 0 st
        (fileAllocatePage disk fid2).2 hlen hall hvalid hn (by omega)
      refine ⟨st2, ?_⟩
      simp only [allocPage]
      rw [show allocBuf st (fileAllocatePage disk fid2).2 =
        some (.err .bufferExhausted st2 (fileAllocatePage disk fid2).2) from hst2]
  · intro ⟨u, hu, hupin⟩
    have hdl := clockDist_lt st.numBufs ((st.clockHand + 1) % st.numBufs) u hu
    exact allocBufLoop_success (2 * st.numBufs + 1) 0 st disk u hlen hn hu hupin
      (by omega) (by split_ifs <;> omega)

/-- Claim C3 witness: the fully pinned two-frame pool. -/
theorem c3_exhaustion_iff_all_pinned_witness :
    (WF stPinned ∧ BufInv stPinned) ∧
    (((∀ i, i < stPinned.numBufs → (descAt stPinned i).pinCnt > 0) →
      (∃ st2, allocBufLoop stPinned.numBufs 0 stPinned disk0 =
        some (.err .bufferExhausted st2 disk0)) ∧
      (∃ st2, allocBuf stPinned disk0 = some (.err .bufferExhausted st2 disk0)) ∧
      (hashLookup stPinned.hashTable 1 5 = none →
        ∃ st2, readPage stPinned disk0 1 5 = some (.err .bufferExhausted st2 disk0)) ∧
      (∃ st2, allocPage stPinned disk0 1 =
        some (.err .bufferExhausted st2 (fileAllocatePage disk0 1).2))) ∧
    ((∃ u, u < stPinned.numBufs ∧ (descAt stPinned u).pinCnt = 0) →
      ∃ f st2 disk2, allocBuf stPinned disk0 = some (.ok f st2 disk2))) :=
  ⟨⟨by decide, by decide⟩,
    c3_exhaustion_iff_all_pinned stPinned disk0 1 5 1 (by decide) (by decide)⟩

/-- Well-formedness follows from structural agreement with a well-formed
state. -/
theorem WF_of_shape (st stR : BufState) (hWF : WF st)
    (hnum : stR.numBufs = st.numBufs)
    (hlen : stR.bufDescTable.length = st.bufDescTable.length)
    (hpl : stR.bufPool.length = st.bufPool.length)
    (hck : stR.clockHand = st.clockHand)
    (hfr : ∀ i, i < st.numBufs → (descAt stR i).frameNo = (descAt st i).frameNo) :
    WF stR := by
  obtain ⟨hn, h1, h2, h3, h4⟩ := hWF
  refine ⟨by omega, by rw [hlen, hnum, h1], by rw [hpl, hnum, h2], by rw [hck, hnum]; exact h3,
    fun i hi => ?_⟩
  rw [hnum] at hi
  rw [hfr i hi]
  exact h4 i hi

/-- Setting one descriptor whose frame number is its own index preserves
well-formedness. -/
theorem WF_setDesc (st : BufState) (f : Nat) (d : BufDesc) (hWF : WF st)
    (hf : f < st.numBufs) (hfr : d.frameNo = f) : WF (setDesc st f d) := by
  refine WF_of_shape st _ hWF rfl (by simp) rfl rfl (fun i hi => ?_)
  by_cases hif : i = f
  · subst hif
    rw [descAt_setDesc_self st i _ (by rw [hWF.2.1]; exact hf), hfr]
    exact (hWF.2.2.2.2 i hi).symm
  · rw [descAt_setDesc_ne st f i _ (fun hc => hif hc.symm)]

/-- Claim C9: after a successful allocPage returning page number p in
frame f, an immediate readPage of (file, p) is a cache hit — it finds
(file, p) in the index, performs no call to the file collaborator (the
disk, its log included, is returned unchanged), returns the same frame f,
and leaves that frame with pin count 2. -/
theorem c9_alloc_then_read_hits (st : BufState) (disk : Disk) (fid p f : Nat)
    (st1 : BufState) (disk1 : Disk) (hWF : WF st) (hInv : BufInv st)
    (h : allocPage st disk fid = some (.ok (p, f) st1 disk1)) :
    hashLookup st1.hashTable fid p = some f ∧
    ∃ st2, readPage st1 disk1 fid p = some (.ok f st2 disk1) ∧
      (descAt st2 f).pinCnt = 2 ∧ (descAt st2 f).refbit = true := by
  simp only [allocPage] at h
  rcases hab : allocBuf st (fileAllocatePage disk fid).2 with _ | r
  · rw [hab] at h
    simp at h
  · rcases r with ⟨f', stA, diskA⟩ | ⟨e, stA, diskA⟩
    · rw [hab] at h
      simp only [Option.some.injEq, Res.ok.injEq, Prod.mk.injEq] at h
      obtain ⟨⟨hp, hf⟩, hst, hdk⟩ := h
      obtain ⟨hWFA, hInvA, hfn, hnumA, hlenA, hpoolA, hvA, hnA⟩ :=
        allocBuf_ok_props st (fileAllocatePage disk fid).2 f' stA diskA hab hWF hInv
      subst hp hf hdk
      have hht1 : st1.hashTable =
          hashInsert stA.hashTable fid (fileAllocatePage disk fid).1.page_number f' := by
        rw [← hst]
        rfl
      have hlen1 : st1.bufDescTable.length = stA.bufDescTable.length := by
        rw [← hst]
        simp [setDesc]
      have hflen1 : f' < st1.bufDescTable.length := by
        rw [hlen1, hlenA]
        exact hfn
      have hdesc1 : descAt st1 f' =
          (descAt stA f').Set fid (fileAllocatePage disk fid).1.page_number := by
        rw [← hst]
        refine descAt_setDesc_self _ _ _ ?_
        show f' < stA.bufDescTable.length
        rw [hlenA]
        exact hfn
      have hlk : hashLookup st1.hashTable fid (fileAllocatePage disk fid).1.page_number
          = some f' := by
        rw [hht1]
        exact hashLookup_insert_self _ _ _ _
      refine ⟨hlk, setDesc st1 f' { descAt st1 f' with refbit := true, pinCnt := (descAt st1 f').pinCnt + 1 }, ?_, ?_, ?_⟩
      · simp [readPage, hlk]
      · rw [descAt_setDesc_self st1 f' _ hflen1]
        simp only [hdesc1, BufDesc.Set_pinCnt]
      · rw [descAt_setDesc_self st1 f' _ hflen1]
    · rw [hab] at h
      simp at h

/-- Claim C9 witness: allocate a page of file 1 on a fresh one-frame
manager, then read it back. -/
theorem c9_alloc_then_read_hits_witness :
    (WF (mkBufMgr 1) ∧ BufInv (mkBufMgr 1) ∧
      allocPage (mkBufMgr 1) disk0 1 = some (.ok (0, 0) stAlloc1 diskAlloc1)) ∧
    (hashLookup stAlloc1.hashTable 1 0 = some 0 ∧
    ∃ st2, readPage stAlloc1 diskAlloc1 1 0 = some (.ok 0 st2 diskAlloc1) ∧
      (descAt st2 0).pinCnt = 2 ∧ (descAt st2 0).refbit = true) :=
  ⟨⟨by decide, by decide, by decide⟩,
    c9_alloc_then_read_hits (mkBufMgr 1) disk0 1 0 0 stAlloc1 diskAlloc1
      (by decide) (by decide) (by decide)⟩

/-- Claim C10: allocPage asks the file collaborator for a new page before
trying to obtain a frame, so when the frame allocation fails with
buffer-exhausted the new page has nonetheless been created in the file
(its next page number is consumed, the page is on disk, and the
allocate call is in the collaborator log as the only disk activity),
while the cache index is unchanged and no descriptor identity changed —
in particular, given that nothing referenced the fresh page number
before the call, nothing references it after; and the error result
carries no page number or frame, so the caller's out-parameters are
never written. -/
theorem c10_page_leak_on_exhaustion (st : BufState) (disk : Disk) (fid : Nat)
    (e : BufError) (st2 : BufState) (disk2 : Disk) (hWF : WF st)
    (hfresh1 : hashLookup st.hashTable fid (diskGetFile disk fid).nextPage = none)
    (hfresh2 : ∀ i, i < st.numBufs → ¬((descAt st i).valid = true ∧
      (descAt st i).file = fid ∧
      (descAt st i).pageNo = (diskGetFile disk fid).nextPage))
    (h : allocPage st disk fid = some (.err e st2 disk2)) :
    e = .bufferExhausted ∧
    disk2 = (fileAllocatePage disk fid).2 ∧
    (diskGetFile disk2 fid).nextPage = (diskGetFile disk fid).nextPage + 1 ∧
    assocLookup (diskGetFile disk2 fid).pages (diskGetFile disk fid).nextPage =
      some ⟨(diskGetFile disk fid).nextPage, 0⟩ ∧
    disk2.log = DiskOp.allocP fid (diskGetFile disk fid).nextPage :: disk.log ∧
    st2.hashTable = st.hashTable ∧
    hashLookup st2.hashTable fid (diskGetFile disk fid).nextPage = none ∧
    (∀ i, i < st2.numBufs → ¬((descAt st2 i).valid = true ∧
      (descAt st2 i).file = fid ∧
      (descAt st2 i).pageNo = (diskGetFile disk fid).nextPage)) := by
  simp only [allocPage] at h
  rcases hab : allocBuf st (fileAllocatePage disk fid).2 with _ | r
  · rw [hab] at h
    simp at h
  · rcases r with ⟨f', stA, diskA⟩ | ⟨e', stA, diskA⟩
    · rw [hab] at h
      simp at h
    · rw [hab] at h
      simp only [Option.some.injEq, Res.err.injEq] at h
      obtain ⟨he, hst, hdk⟩ := h
      subst he hst hdk
      obtain ⟨he2, hdk2, hro, _⟩ :=
        allocBufLoop_err _ _ _ _ _ _ _ hab hWF.2.1
      subst hdk2
      refine ⟨he2, rfl, ?_, ?_, ?_, hro.2.1, by rw [hro.2.1]; exact hfresh1, ?_⟩
      · simp [fileAllocatePage, diskGetFile, diskSetFile, assocLookup]
      · simp [fileAllocatePage, diskGetFile, diskSetFile, assocLookup]
      · simp [fileAllocatePage, diskGetFile, diskSetFile, assocLookup]
      · intro i hi hc
        obtain ⟨f1, f2, f3, f4, f5, f6⟩ := RefOnly.fields st stA hro i
        rw [f1, f4, f5] at hc
        rw [hro.1] at hi
        exact hfresh2 i hi hc

/-- Claim C10 witness: a fully pinned two-frame pool; allocating a page of
file 1 on the empty disk fails, yet the page is created on disk. -/
theorem c10_page_leak_on_exhaustion_witness :
    (WF stPinned ∧
      hashLookup stPinned.hashTable 1 (diskGetFile disk0 1).nextPage = none ∧
      (∀ i, i < stPinned.numBufs → ¬((descAt stPinned i).valid = true ∧
        (descAt stPinned i).file = 1 ∧
        (descAt stPinned i).pageNo = (diskGetFile disk0 1).nextPage)) ∧
      allocPage stPinned disk0 1 = some (.err .bufferExhausted stPinnedAfter diskAlloc1)) ∧
    (BufError.bufferExhausted = .bufferExhausted ∧
    diskAlloc1 = (fileAllocatePage disk0 1).2 ∧
    (diskGetFile diskAlloc1 1).nextPage = (diskGetFile disk0 1).nextPage + 1 ∧
    assocLookup (diskGetFile diskAlloc1 1).pages (diskGetFile disk0 1).nextPage =
      some ⟨(diskGetFile disk0 1).nextPage, 0⟩ ∧
    diskAlloc1.log = DiskOp.allocP 1 (diskGetFile disk0 1).nextPage :: disk0.log ∧
    stPinnedAfter.hashTable = stPinned.hashTable ∧
    hashLookup stPinnedAfter.hashTable 1 (diskGetFile disk0 1).nextPage = none ∧
    (∀ i, i < stPinnedAfter.numBufs → ¬((descAt stPinnedAfter i).valid = true ∧
      (descAt stPinnedAfter i).file = 1 ∧
      (descAt stPinnedAfter i).pageNo = (diskGetFile disk0 1).nextPage))) :=
  ⟨⟨by decide, by decide, by decide, by decide⟩,
    c10_page_leak_on_exhaustion stPinned disk0 1 .bufferExhausted stPinnedAfter diskAlloc1
      (by decide) (by decide) (by decide) (by decide)⟩

/-- Installing a page into a frame handed out by allocBuf (the common tail
of the readPage miss path and of allocPage) preserves well-formedness and
the invariant. -/
theorem install_WFInv (stA : BufState) (p : Page) (fid pno f : Nat)
    (hWFA : WF stA) (hInvA : BufInv stA) (hfn : f < stA.numBufs)
    (hvA : (descAt stA f).valid = false)
    (hmiss : hashLookup stA.hashTable fid pno = none) :
    WF (setDesc { setPool stA f p with hashTable := hashInsert (setPool stA f p).hashTable fid pno f } f ((descAt { setPool stA f p with hashTable := hashInsert (setPool stA f p).hashTable fid pno f } f).Set fid pno)) ∧
    BufInv (setDesc { setPool stA f p with hashTable := hashInsert (setPool stA f p).hashTable fid pno f } f ((descAt { setPool stA f p with hashTable := hashInsert (setPool stA f p).hashTable fid pno f } f).Set fid pno)) := by
  have hflenX : f < ({ setPool stA f p with hashTable := hashInsert (setPool stA f p).hashTable fid pno f } : BufState).bufDescTable.length := by
    show f < stA.bufDescTable.length
    rw [hWFA.2.1]
    exact hfn
  have hdesc_self := descAt_setDesc_self
    { setPool stA f p with hashTable := hashInsert (setPool stA f p).hashTable fid pno f } f
    ((descAt { setPool stA f p with hashTable := hashInsert (setPool stA f p).hashTable fid pno f } f).Set fid pno) hflenX
  have hdesc_ne := fun (j : Nat) (hj : j ≠ f) => descAt_setDesc_ne
    { setPool stA f p with hashTable := hashInsert (setPool stA f p).hashTable fid pno f } f j
    ((descAt { setPool stA f p with hashTable := hashInsert (setPool stA f p).hashTable fid pno f } f).Set fid pno) (fun hc => hj hc.symm)
  constructor
  · refine WF_of_shape stA _ hWFA rfl (by simp [setDesc]) (by simp [setDesc, setPool]) rfl
      (fun i hi => ?_)
    by_cases hif : i = f
    · subst hif
      rw [hdesc_self]
      rfl
    · rw [hdesc_ne i hif]
      rfl
  · refine BufInv_install stA _ fid pno f hInvA hfn hvA hmiss rfl rfl ?_ ?_
    · exact hdesc_self
    · intro j hj
      exact hdesc_ne j hj

/-- Claim C1: from any well-formed state satisfying the cache-index /
descriptor invariant (every index entry names a valid descriptor holding
exactly that (file, pageNo), every valid descriptor is found at its own
key, keys and frames are duplicate-free, and invalid frames are unpinned
and clean), the state after any readPage, allocPage (with a fresh page
number from the collaborator), unPinPage, flushFile, or disposePage —
whether the call succeeds or throws — is again well-formed and satisfies
the invariant. -/
theorem c1_index_descriptor_invariant (st : BufState) (disk : Disk)
    (hWF : WF st) (hInv : BufInv st) :
    (∀ fid pno r, readPage st disk fid pno = some r → WF r.state ∧ BufInv r.state) ∧
    (∀ fid r, hashLookup st.hashTable fid (diskGetFile disk fid).nextPage = none →
      allocPage st disk fid = some r → WF r.state ∧ BufInv r.state) ∧
    (∀ fid pno d, WF (unPinPage st disk fid pno d).state ∧
      BufInv (unPinPage st disk fid pno d).state) ∧
    (∀ fid, WF (flushFile st disk fid).state ∧ BufInv (flushFile st disk fid).state) ∧
    (∀ fid pno, WF (disposePage st disk fid pno).state ∧
      BufInv (disposePage st disk fid pno).state) := by
  refine ⟨?_, ?_, ?_, ?_, ?_⟩
  · -- readPage
    intro fid pno r hr
    rcases hlk : hashLookup st.hashTable fid pno with _ | f
    · simp only [readPage, hlk] at hr
      rcases hab : allocBuf st disk with _ | rr
      · rw [hab] at hr
        simp at hr
      · rcases rr with ⟨f, stA, diskA⟩ | ⟨e, stA, diskA⟩
        · rw [hab] at hr
          simp only [Option.some.injEq] at hr
          subst hr
          obtain ⟨hWFA, hInvA, hfn, hnumA, hlenA, hpoolA, hvA, hnA⟩ :=
            allocBuf_ok_props st disk f stA diskA hab hWF hInv
          exact install_WFInv stA (fileReadPage diskA fid pno).1 fid pno f hWFA hInvA
            (by rw [hnumA]; exact hfn) hvA (hnA fid pno hlk)
        · rw [hab] at hr
          simp only [Option.some.injEq] at hr
          subst hr
          obtain ⟨he, hdk, hro, hck⟩ := allocBufLoop_err _ _ _ _ _ _ _ hab hWF.2.1
          simp only [Res.state]
          refine ⟨⟨?_, ?_, ?_, hck, ?_⟩, BufInv.of_refOnly st stA hro hInv⟩
          · rw [hro.1]
            exact hWF.1
          · rw [hro.2.2.2.1, hWF.2.1, hro.1]
          · rw [hro.2.2.1, hro.1]
            exact hWF.2.2.1
          · intro i hi
            rw [hro.1] at hi
            rw [(RefOnly.fields st stA hro i).2.2.2.2.2]
            exact hWF.2.2.2.2 i hi
    · simp only [readPage, hlk] at hr
      simp only [Option.some.injEq] at hr
      subst hr
      simp only [Res.state]
      have hmem := hashLookup_mem _ _ _ _ hlk
      obtain ⟨g1, g2, g3, g4⟩ := hInv.1 _ hmem
      have hflen : f < st.bufDescTable.length := by rw [hWF.2.1]; exact g1
      constructor
      · refine WF_setDesc st f _ hWF g1 ?_
        show (descAt st f).frameNo = f
        exact hWF.2.2.2.2 f g1
      · refine BufInv_update_at st _ f hInv rfl rfl ?_ ?_ ?_ ?_ ?_
        · intro j hj
          exact descAt_setDesc_ne st f j _ (fun hc => hj hc.symm)
        · rw [descAt_setDesc_self st f _ hflen]
        · rw [descAt_setDesc_self st f _ hflen]
        · rw [descAt_setDesc_self st f _ hflen]
        · intro hc
          rw [hc] at g2
          exact absurd g2 (by simp)
  · -- allocPage
    intro fid r hfresh hr
    simp only [allocPage] at hr
    rcases hab : allocBuf st (fileAllocatePage disk fid).2 with _ | rr
    · rw [hab] at hr
      simp at hr
    · rcases rr with ⟨f, stA, diskA⟩ | ⟨e, stA, diskA⟩
      · rw [hab] at hr
        simp only [Option.some.injEq] at hr
        subst hr
        obtain ⟨hWFA, hInvA, hfn, hnumA, hlenA, hpoolA, hvA, hnA⟩ :=
          allocBuf_ok_props st (fileAllocatePage disk fid).2 f stA diskA hab hWF hInv
        exact install_WFInv stA (fileAllocatePage disk fid).1 fid
          (fileAllocatePage disk fid).1.page_number f hWFA hInvA
          (by rw [hnumA]; exact hfn) hvA (hnA fid _ hfresh)
      · rw [hab] at hr
        simp only [Option.some.injEq] at hr
        subst hr
        obtain ⟨he, hdk, hro, hck⟩ := allocBufLoop_err _ _ _ _ _ _ _ hab hWF.2.1
        simp only [Res.state]
        refine ⟨⟨?_, ?_, ?_, hck, ?_⟩, BufInv.of_refOnly st stA hro hInv⟩
        · rw [hro.1]
          exact hWF.1
        · rw [hro.2.2.2.1, hWF.2.1, hro.1]
        · rw [hro.2.2.1, hro.1]
          exact hWF.2.2.1
        · intro i hi
          rw [hro.1] at hi
          rw [(RefOnly.fields st stA hro i).2.2.2.2.2]
          exact hWF.2.2.2.2 i hi
  · -- unPinPage
    intro fid pno d
    rcases hlk : hashLookup st.hashTable fid pno with _ | f
    · simp only [unPinPage, hlk]
      exact ⟨hWF, hInv⟩
    · have hmem := hashLookup_mem _ _ _ _ hlk
      obtain ⟨g1, g2, g3, g4⟩ := hInv.1 _ hmem
      have hflen : f < st.bufDescTable.length := by rw [hWF.2.1]; exact g1
      by_cases hp0 : (descAt st f).pinCnt = 0
      · simp only [unPinPage, hlk, if_pos hp0]
        exact ⟨hWF, hInv⟩
      · simp only [unPinPage, hlk, if_neg hp0, Res.state]
        constructor
        · refine WF_setDesc st f _ hWF g1 ?_
          have : (descAt st f).frameNo = f := hWF.2.2.2.2 f g1
          split_ifs <;> exact this
        · refine BufInv_update_at st _ f hInv rfl rfl ?_ ?_ ?_ ?_ ?_
          · intro j hj
            exact descAt_setDesc_ne st f j _ (fun hc => hj hc.symm)
          · rw [descAt_setDesc_self st f _ hflen]
            split_ifs <;> rfl
          · rw [descAt_setDesc_self st f _ hflen]
            split_ifs <;> rfl
          · rw [descAt_setDesc_self st f _ hflen]
            split_ifs <;> rfl
          · intro hc
            rw [hc] at g2
            exact absurd g2 (by simp)
  · -- flushFile
    intro fid
    show WF (flushLoop st disk st.numBufs 0).state ∧
      BufInv (flushLoop st disk st.numBufs 0).state
    obtain ⟨g1, g2, g3, g4, g5, g6⟩ :=
      flushLoop_props st.numBufs 0 st disk hWF.2.1 (by omega) hInv
    refine ⟨⟨?_, ?_, ?_, ?_, ?_⟩, g1⟩
    · rw [g2]
      exact hWF.1
    · rw [g3, hWF.2.1, g2]
    · rw [g2]
      have : (flushLoop st disk st.numBufs 0).state.bufPool = st.bufPool := g4
      rw [this]
      exact hWF.2.2.1
    · rw [g5, g2]
      exact hWF.2.2.2.1
    · intro i hi
      rw [g2] at hi
      rw [g6 i]
      exact hWF.2.2.2.2 i hi
  · -- disposePage
    intro fid pno
    rcases hlk : hashLookup st.hashTable fid pno with _ | f
    · simp only [disposePage, hlk]
      exact ⟨hWF, hInv⟩
    · have hmem := hashLookup_mem _ _ _ _ hlk
      obtain ⟨g1, g2, g3, g4⟩ := hInv.1 _ hmem
      have hflen : f < st.bufDescTable.length := by rw [hWF.2.1]; exact g1
      have hd1 : descAt (setDesc st f (descAt st f).Clear) f = (descAt st f).Clear :=
        descAt_setDesc_self st f _ hflen
      simp only [disposePage, hlk, Res.state]
      rw [hd1]
      simp only [BufDesc.Clear_file, BufDesc.Clear_pageNo, setDesc_hashTable]
      have hWFE : WF (evictFrame st f) := by
        refine WF_of_shape st _ hWF rfl (by simp) rfl rfl (fun i hi => ?_)
        by_cases hif : i = f
        · subst hif
          rw [descAt_evictFrame_self st i hflen]
          rfl
        · rw [descAt_evictFrame_ne st f i hif]
      exact ⟨hWFE, BufInv_evict st f hInv hWF.2.1 g1 g2⟩

/-- Claim C1 witness: the two-frame pool with one pinned and one unpinned
valid frame. -/
theorem c1_index_descriptor_invariant_witness :
    (WF stFlush ∧ BufInv stFlush) ∧
    ((∀ fid pno r, readPage stFlush disk0 fid pno = some r → WF r.state ∧ BufInv r.state) ∧
    (∀ fid r, hashLookup stFlush.hashTable fid (diskGetFile disk0 fid).nextPage = none →
      allocPage stFlush disk0 fid = some r → WF r.state ∧ BufInv r.state) ∧
    (∀ fid pno d, WF (unPinPage stFlush disk0 fid pno d).state ∧
      BufInv (unPinPage stFlush disk0 fid pno d).state) ∧
    (∀ fid, WF (flushFile stFlush disk0 fid).state ∧
      BufInv (flushFile stFlush disk0 fid).state) ∧
    (∀ fid pno, WF (disposePage stFlush disk0 fid pno).state ∧
      BufInv (disposePage stFlush disk0 fid pno).state)) :=
  ⟨⟨by decide, by decide⟩,
    c1_index_descriptor_invariant stFlush disk0 (by decide) (by decide)⟩
